import Mathlib

/-!
# Verification of the IOTingestor mock-telemetry generator

Shallow embedding of the packet-generation core of the IOTingestor
repository (files `utils.py`, `database.py`, `app_pages/generator.py`,
`app_pages/data_points.py`, `pages/multi_json_generator.py`), together
with proofs and refutations of the specification's claims.

Modelling conventions:
* Python strings are `List Char`; the rendered timestamp string is a
  `List ℕ` of Unicode code points, so that Python's lexicographic string
  comparison is exactly lexicographic order on the code-point lists.
* Python `datetime` instants are modelled as whole seconds since
  0001-01-01T00:00:00 on the proleptic Gregorian calendar (every instant
  the generators construct is a whole second); `timedelta` arithmetic is
  exact, and the one microsecond-precision quantity (`total_seconds()`
  of a window ending at `time.max`) is modelled exactly in microseconds.
* Python `float` values are modelled as exact rationals and `int` as ℤ.
* A Python exception is `Except.error ()`; Python's `None` value is the
  distinct `PyVal.none`.
* Random draws (`random.random`, `random.randint`, `random.choice`) are
  passed in explicitly as oracle data, so theorems quantify over every
  possible draw.
-/

/-- Python strings, as lists of characters. -/
abbrev PyStr := List Char

/-- Shorthand: the character list of a Lean string literal. -/
def pys (s : String) : PyStr := s.data

/-- ASCII/Python whitespace recognised by `str.strip()` (the characters
`' '`, `'\t'`, `'\n'`, `'\r'`, `'\x0b'`, `'\x0c'`). -/
def pyIsSpace (c : Char) : Bool :=
  c = ' ' || c = '\t' || c = '\n' || c = '\r' || c = '\x0b' || c = '\x0c'

/-- Python `str.strip()`: remove leading and trailing whitespace. -/
def pyStrip (s : PyStr) : PyStr :=
  ((s.dropWhile pyIsSpace).reverse.dropWhile pyIsSpace).reverse

/-- Python `str.split(',')`: split on every comma; `[""].length = 1` for
the empty string, matching `"".split(',') == ['']`. -/
def splitComma : PyStr → List PyStr
  | [] => [[]]
  | c :: cs =>
    if c = ',' then [] :: splitComma cs
    else
      match splitComma cs with
      | [] => [[c]]
      | h :: t => (c :: h) :: t

/-- `splitComma` never returns the empty list (so `random.choice` on the
split of a non-empty options string cannot raise). -/
theorem splitComma_ne_nil (s : PyStr) : splitComma s ≠ [] := by
  induction s with
  | nil => simp [splitComma]
  | cons c cs ih =>
    simp only [splitComma]
    split
    · simp
    · cases h : splitComma cs with
      | nil => simp
      | cons a t => simp

/-- Lexicographic (code-point) `≤` on rendered strings: Python's `<=` on
`str`, acting on the code-point lists. -/
def lexLe : List ℕ → List ℕ → Bool
  | [], _ => true
  | _ :: _, [] => false
  | a :: as, b :: bs =>
    if a < b then true else if b < a then false else lexLe as bs

/-- Lexicographic (code-point) `<` on rendered strings. -/
def lexLt : List ℕ → List ℕ → Bool
  | [], [] => false
  | [], _ :: _ => true
  | _ :: _, [] => false
  | a :: as, b :: bs =>
    if a < b then true else if b < a then false else lexLt as bs

theorem lexLe_refl (x : List ℕ) : lexLe x x = true := by
  induction x with
  | nil => rfl
  | cons a as ih => simp [lexLe, ih]

theorem lexLe_total (x y : List ℕ) : lexLe x y || lexLe y x := by
  induction x generalizing y with
  | nil => simp [lexLe]
  | cons a as ih =>
    cases y with
    | nil => simp [lexLe]
    | cons b bs =>
      by_cases hab : a < b
      · simp [lexLe, hab]
      · by_cases hba : b < a
        · simp [lexLe, hab, hba, Nat.lt_asymm hba]
        · simp [lexLe, hab, hba, ih bs]

theorem lexLe_trans {x y z : List ℕ} (h1 : lexLe x y = true)
    (h2 : lexLe y z = true) : lexLe x z = true := by
  induction x generalizing y z with
  | nil => simp [lexLe]
  | cons a as ih =>
    cases y with
    | nil => simp [lexLe] at h1
    | cons b bs =>
      cases z with
      | nil => simp [lexLe] at h2
      | cons c cs =>
        simp only [lexLe] at h1 h2 ⊢
        by_cases hab : a < b
        · by_cases hbc : b < c
          · simp [Nat.lt_trans hab hbc]
          · by_cases hcb : c < b
            · simp only [hbc, if_false, hcb, if_true] at h2
              exact absurd h2 (by simp)
            · have hbc' : b = c := Nat.le_antisymm (Nat.le_of_not_lt hcb) (Nat.le_of_not_lt hbc)
              subst hbc'
              simp [hab]
        · by_cases hba : b < a
          · simp [hab, hba] at h1
          · have hab' : a = b := Nat.le_antisymm (Nat.le_of_not_lt hba) (Nat.le_of_not_lt hab)
            subst hab'
            simp only [lt_irrefl, if_false] at h1
            by_cases hbc : a < c
            · simp [hbc]
            · by_cases hcb : c < a
              · simp [hbc, hcb] at h2
              · simp only [hbc, if_false, hcb, if_false] at h2 ⊢
                exact ih h1 h2

theorem lexLt_iff_le_ne {x y : List ℕ} : lexLt x y = true ↔ (lexLe x y = true ∧ x ≠ y) := by
  induction x generalizing y with
  | nil =>
    cases y with
    | nil => simp [lexLt, lexLe]
    | cons b bs => simp [lexLt, lexLe]
  | cons a as ih =>
    cases y with
    | nil => simp [lexLt, lexLe]
    | cons b bs =>
      by_cases hab : a < b
      · simp [lexLt, lexLe, hab, Nat.ne_of_lt hab]
      · by_cases hba : b < a
        · simp [lexLt, lexLe, hab, hba]
        · have hab' : a = b := Nat.le_antisymm (Nat.le_of_not_lt hba) (Nat.le_of_not_lt hab)
          subst hab'
          simp [lexLt, lexLe, ih]

/-- Appending to both sides of a common prefix preserves lexicographic `<`. -/
theorem lexLt_append_congr (p xs ys : List ℕ) :
    lexLt (p ++ xs) (p ++ ys) = lexLt xs ys := by
  induction p with
  | nil => rfl
  | cons a p ih => simp [lexLt, ih]

/-- If two equal-length lists already compare strictly, any suffixes keep
the comparison. -/
theorem lexLt_append_of_lt {xs ys : List ℕ} (h : lexLt xs ys = true)
    (hlen : xs.length = ys.length) (as bs : List ℕ) :
    lexLt (xs ++ as) (ys ++ bs) = true := by
  induction xs generalizing ys with
  | nil =>
    cases ys with
    | nil => simp [lexLt] at h
    | cons b bs' => simp at hlen
  | cons a as' ih =>
    cases ys with
    | nil => simp at hlen
    | cons b bs' =>
      simp only [lexLt] at h ⊢
      by_cases hab : a < b
      · simp [hab]
      · by_cases hba : b < a
        · simp [hab, hba] at h
        · simp only [hab, if_false, hba, if_false] at h ⊢
          exact ih h (by simpa using hlen)

theorem lexLt_asymm {x y : List ℕ} (h : lexLt x y = true) : lexLt y x = false := by
  induction x generalizing y with
  | nil =>
    cases y with
    | nil => simp [lexLt] at h
    | cons b bs => simp [lexLt]
  | cons a as ih =>
    cases y with
    | nil => simp [lexLt] at h
    | cons b bs =>
      simp only [lexLt] at h ⊢
      by_cases hab : a < b
      · simp [Nat.lt_asymm hab, Nat.ne_of_lt hab, hab]
      · by_cases hba : b < a
        · simp [hab, hba] at h
        · simp only [hab, if_false, hba, if_false] at h ⊢
          exact ih h

/-! ## Proleptic Gregorian calendar (Python `datetime.date` semantics)

A date is recovered from a day number (days since 0001-01-01) by peeling
whole years and then whole months, which is extensionally Python's
ordinal-to-date conversion. `peel f fuel i d` repeatedly subtracts
`f i`, `f (i+1)`, … from `d` while it fits; the fuel argument only makes
the recursion structural and is always chosen large enough. -/

/-- Python/Gregorian leap-year test (`calendar.isleap`). -/
def isLeap (y : ℕ) : Bool := y % 4 == 0 && (y % 100 != 0 || y % 400 == 0)

/-- Days in year `y` of the proleptic Gregorian calendar. -/
def daysInYear (y : ℕ) : ℕ := if isLeap y then 366 else 365

/-- Days in month `m` of a (non-)leap year; total for months 13 and up,
which never arise. -/
def daysInMonth (leap : Bool) (m : ℕ) : ℕ :=
  if m = 2 then (if leap then 29 else 28)
  else if m = 4 ∨ m = 6 ∨ m = 9 ∨ m = 11 then 30 else 31

/-- Generic peeling loop: subtract `f i`, `f (i+1)`, … from `d` while it
fits, returning the index reached and the remainder. -/
def peel (f : ℕ → ℕ) : ℕ → ℕ → ℕ → ℕ × ℕ
  | 0, i, d => (i, d)
  | fuel + 1, i, d => if d < f i then (i, d) else peel f fuel (i + 1) (d - f i)

theorem peel_fst_ge (f : ℕ → ℕ) (fuel i d : ℕ) : i ≤ (peel f fuel i d).1 := by
  induction fuel generalizing i d with
  | zero => simp [peel]
  | succ fuel ih =>
    simp only [peel]
    split
    · exact le_refl i
    · exact le_trans (Nat.le_succ i) (ih (i + 1) (d - f i))

theorem peel_fst_le (f : ℕ → ℕ) (fuel i d : ℕ) : (peel f fuel i d).1 ≤ i + fuel := by
  induction fuel generalizing i d with
  | zero => simp [peel]
  | succ fuel ih =>
    simp only [peel]
    split
    · omega
    · have := ih (i + 1) (d - f i)
      omega

theorem peel_snd_spec (f : ℕ → ℕ) (L : ℕ) (hL : ∀ j, L ≤ f j) :
    ∀ fuel i d, d < L * fuel → (peel f fuel i d).2 < f (peel f fuel i d).1 := by
  intro fuel
  induction fuel with
  | zero => intro i d h; omega
  | succ fuel ih =>
    intro i d h
    simp only [peel]
    split
    · assumption
    · have hfi : L ≤ f i := hL i
      have : d - f i < L * fuel := by
        have : ¬ d < f i := by assumption
        have hdL : L ≤ d := le_trans hfi (Nat.le_of_not_lt this)
        calc d - f i ≤ d - L := by omega
        _ < L * fuel := by
            have : d < L * fuel + L := by
              have := h; rw [Nat.mul_succ] at this; omega
            omega
      exact ih (i + 1) (d - f i) this

theorem peel_congr (f : ℕ → ℕ) (L : ℕ) (hL : ∀ j, L ≤ f j) :
    ∀ fuel fuel' i d, d < L * fuel → d < L * fuel' →
      peel f fuel i d = peel f fuel' i d := by
  intro fuel
  induction fuel with
  | zero => intro fuel' i d h; omega
  | succ fuel ih =>
    intro fuel' i d h h'
    cases fuel' with
    | zero => omega
    | succ fuel' =>
      simp only [peel]
      split
      · rfl
      · have hni : ¬ d < f i := by assumption
        have hfi : L ≤ f i := hL i
        have h1 : d - f i < L * fuel := by
          rw [Nat.mul_succ] at h; omega
        have h2 : d - f i < L * fuel' := by
          rw [Nat.mul_succ] at h'; omega
        exact ih fuel' (i + 1) (d - f i) h1 h2

/-- Peeling is strictly monotone in the peeled quantity, for the
lexicographic order on (index, remainder). -/
theorem peel_mono (f : ℕ → ℕ) (L : ℕ) (hL : ∀ j, L ≤ f j) :
    ∀ fuel i d₁ d₂, d₁ < d₂ → d₂ < L * fuel →
      ((peel f fuel i d₁).1 < (peel f fuel i d₂).1 ∨
       ((peel f fuel i d₁).1 = (peel f fuel i d₂).1 ∧
        (peel f fuel i d₁).2 < (peel f fuel i d₂).2)) := by
  intro fuel
  induction fuel with
  | zero => intro i d₁ d₂ h hb; omega
  | succ fuel ih =>
    intro i d₁ d₂ h hb
    simp only [peel]
    by_cases h1 : d₁ < f i
    · by_cases h2 : d₂ < f i
      · simp [h1, h2]; omega
      · simp only [h1, if_true, h2, if_false]
        left
        have := peel_fst_ge f fuel (i + 1) (d₂ - f i)
        omega
    · have h2 : ¬ d₂ < f i := by omega
      simp only [h1, if_false, h2, if_false]
      have hfi : L ≤ f i := hL i
      have hb' : d₂ - f i < L * fuel := by
        rw [Nat.mul_succ] at hb; omega
      exact ih (i + 1) (d₁ - f i) (d₂ - f i) (by omega) hb'

/-- Year-and-day-of-year of a day number (days since 0001-01-01). -/
def yearSplit (d : ℕ) : ℕ × ℕ := peel daysInYear (d + 1) 1 d

/-- Month-and-day-of-month (day 0-based) within a year. -/
def monthSplit (leap : Bool) (doy : ℕ) : ℕ × ℕ := peel (daysInMonth leap) 12 1 doy

/-- Civil date (year, month, day) of a day number, as Python's
`date.fromordinal (d+1)` computes it. -/
def dateOfDays (d : ℕ) : ℕ × ℕ × ℕ :=
  ((yearSplit d).1,
   (monthSplit (isLeap (yearSplit d).1) (yearSplit d).2).1,
   (monthSplit (isLeap (yearSplit d).1) (yearSplit d).2).2 + 1)

theorem daysInYear_ge (y : ℕ) : 365 ≤ daysInYear y := by
  unfold daysInYear; split <;> omega

theorem daysInYear_le (y : ℕ) : daysInYear y ≤ 366 := by
  unfold daysInYear; split <;> omega

theorem yearSplit_doy_lt (d : ℕ) : (yearSplit d).2 < daysInYear (yearSplit d).1 := by
  have h365 : ∀ j, 365 ≤ daysInYear j := daysInYear_ge
  exact peel_snd_spec daysInYear 365 h365 (d + 1) 1 d (by nlinarith)

theorem yearSplit_fst_pos (d : ℕ) : 1 ≤ (yearSplit d).1 :=
  peel_fst_ge daysInYear (d + 1) 1 d

/-- The year/day-of-year split is monotone (lexicographically) in the day
number. -/
theorem yearSplit_mono {d₁ d₂ : ℕ} (h : d₁ < d₂) :
    (yearSplit d₁).1 < (yearSplit d₂).1 ∨
    ((yearSplit d₁).1 = (yearSplit d₂).1 ∧ (yearSplit d₁).2 < (yearSplit d₂).2) := by
  have h365 : ∀ j, 365 ≤ daysInYear j := daysInYear_ge
  have e1 : yearSplit d₁ = peel daysInYear (d₂ + 1) 1 d₁ := by
    unfold yearSplit
    exact peel_congr daysInYear 365 h365 (d₁ + 1) (d₂ + 1) 1 d₁ (by nlinarith) (by nlinarith)
  rw [yearSplit, e1] at *
  rw [yearSplit]
  exact peel_mono daysInYear 365 h365 (d₂ + 1) 1 d₁ d₂ h (by nlinarith)

set_option maxRecDepth 4000 in
/-- Concrete facts about the month table: for any day-of-year within the
year, peeling with fuel 12 lands on a month in 1..12 with a valid
day-of-month remainder. -/
theorem monthSplit_spec : ∀ (leap : Bool) (doy : ℕ),
    doy < (if leap then 366 else 365) →
    ((monthSplit leap doy).1 ≤ 12 ∧
     (monthSplit leap doy).2 < daysInMonth leap (monthSplit leap doy).1) := by
  decide

/-- Lexicographic order on (month, day) and (year, day-of-year) pairs. -/
def pairLt (a b : ℕ × ℕ) : Prop := a.1 < b.1 ∨ (a.1 = b.1 ∧ a.2 < b.2)

theorem pairLt_trans {a b c : ℕ × ℕ} (h1 : pairLt a b) (h2 : pairLt b c) : pairLt a c := by
  unfold pairLt at *; omega

instance (a b : ℕ × ℕ) : Decidable (pairLt a b) := by
  unfold pairLt; infer_instance

set_option maxRecDepth 4000 in
/-- One-step monotonicity of the month/day split. -/
theorem monthSplit_succ : ∀ (leap : Bool) (doy : ℕ), doy < 365 →
    pairLt (monthSplit leap doy) (monthSplit leap (doy + 1)) := by
  decide

/-- The month/day split is monotone (lexicographically) in the
day-of-year. -/
theorem monthSplit_mono (leap : Bool) {doy₁ doy₂ : ℕ} (h : doy₁ < doy₂) (hb : doy₂ < 366) :
    pairLt (monthSplit leap doy₁) (monthSplit leap doy₂) := by
  induction doy₂ with
  | zero => omega
  | succ d ih =>
    rcases Nat.lt_succ_iff_lt_or_eq.mp h with h' | h'
    · exact pairLt_trans (ih h' (by omega)) (monthSplit_succ leap d (by omega))
    · subst h'
      exact monthSplit_succ leap doy₁ (by omega)

/-! ## Rendering `format_timestamp` (utils.py)

`format_timestamp` attaches the fixed +05:30 offset with `replace(tzinfo=…)`
(which keeps the wall-clock fields unchanged) and renders
`'%Y-%m-%dT%H:%M:%S%z'`.  The result is modelled as the list of Unicode
code points of that string.  `%z` is always the five characters `+0530`;
`%Y` renders the year in decimal without padding (glibc behaviour), which
is four fixed digits exactly when the year is in 1000..9999. -/

/-- Decimal digits of `n`, most significant first (`fuel`-structured). -/
def digitsAux : ℕ → ℕ → List ℕ
  | 0, _ => []
  | fuel + 1, n => if n < 10 then [n] else digitsAux fuel (n / 10) ++ [n % 10]

/-- Decimal digits of `n`, most significant first. -/
def natDigits (n : ℕ) : List ℕ := digitsAux (n + 1) n

/-- Two-digit zero-padded field (`%m`, `%d`, `%H`, `%M`, `%S`). -/
def pad2 (n : ℕ) : List ℕ := [n / 10, n % 10]

/-- Digits to code points (`'0'` is 48). -/
def digitCodes (l : List ℕ) : List ℕ := l.map (48 + ·)

/-- Code points of the date part `YYYY-MM-DD` of a day number. -/
def dateCodes (d : ℕ) : List ℕ :=
  digitCodes (natDigits (dateOfDays d).1) ++ [45] ++
    digitCodes (pad2 (dateOfDays d).2.1) ++ [45] ++
    digitCodes (pad2 (dateOfDays d).2.2)

/-- Code points of the time part `HH:MM:SS` of a second-of-day. -/
def timeCodes (sod : ℕ) : List ℕ :=
  digitCodes (pad2 (sod / 3600)) ++ [58] ++ digitCodes (pad2 (sod % 3600 / 60)) ++ [58] ++
    digitCodes (pad2 (sod % 60))

/-- `format_timestamp` of an instant (seconds since 0001-01-01T00:00:00),
as the code points of `YYYY-MM-DDTHH:MM:SS+0530`. -/
def renderInstant (t : ℕ) : List ℕ :=
  dateCodes (t / 86400) ++ [84] ++ timeCodes (t % 86400) ++ [43, 48, 53, 51, 48]

/-- The year in which an instant falls. -/
def yearOfInstant (t : ℕ) : ℕ := (yearSplit (t / 86400)).1

theorem digitsAux_step {fuel n : ℕ} (h : 10 ≤ n) :
    digitsAux (fuel + 1) n = digitsAux fuel (n / 10) ++ [n % 10] := by
  simp [digitsAux, Nat.not_lt.mpr h]

theorem digitsAux_small {fuel n : ℕ} (h : n < 10) :
    digitsAux (fuel + 1) n = [n] := by
  simp [digitsAux, h]

/-- Four-digit years render as exactly their four decimal digits. -/
theorem natDigits_four {y : ℕ} (h1 : 1000 ≤ y) (h2 : y ≤ 9999) :
    natDigits y = [y / 1000, y / 100 % 10, y / 10 % 10, y % 10] := by
  unfold natDigits
  obtain ⟨f1, hf1⟩ : ∃ f1, y + 1 = f1 + 1 := ⟨y, rfl⟩
  rw [hf1, digitsAux_step (by omega)]
  obtain ⟨f2, hf2⟩ : ∃ f2, f1 = f2 + 1 := ⟨f1 - 1, by omega⟩
  rw [hf2, digitsAux_step (by omega)]
  obtain ⟨f3, hf3⟩ : ∃ f3, f2 = f3 + 1 := ⟨f2 - 1, by omega⟩
  rw [hf3, digitsAux_step (by omega)]
  obtain ⟨f4, hf4⟩ : ∃ f4, f3 = f4 + 1 := ⟨f3 - 1, by omega⟩
  rw [hf4, digitsAux_small (by omega)]
  have e1 : y / 10 / 10 = y / 100 := by omega
  have e2 : y / 100 / 10 = y / 1000 := by omega
  have e5 : y / 1000 % 10 = y / 1000 := by omega
  simp only [e1, e2, e5, List.append_assoc, List.singleton_append, List.cons_append,
    List.nil_append]

/-- Strict monotonicity of the rendered four-digit year. -/
theorem yearCodes_mono {y₁ y₂ : ℕ} (h1 : 1000 ≤ y₁) (h : y₁ < y₂) (h2 : y₂ ≤ 9999) :
    lexLt (digitCodes (natDigits y₁)) (digitCodes (natDigits y₂)) = true := by
  rw [natDigits_four h1 (by omega), natDigits_four (by omega) h2]
  simp only [digitCodes, List.map]
  rcases Nat.lt_trichotomy (y₁ / 1000) (y₂ / 1000) with hd | hd | hd
  · simp [lexLt]; omega
  · rcases Nat.lt_trichotomy (y₁ / 100 % 10) (y₂ / 100 % 10) with he | he | he
    · simp [lexLt]; omega
    · rcases Nat.lt_trichotomy (y₁ / 10 % 10) (y₂ / 10 % 10) with hf | hf | hf
      · simp [lexLt]; omega
      · have : y₁ % 10 < y₂ % 10 := by omega
        simp [lexLt]; omega
      · omega
    · omega
  · omega

theorem natDigits_four_length {y : ℕ} (h1 : 1000 ≤ y) (h2 : y ≤ 9999) :
    (digitCodes (natDigits y)).length = 4 := by
  rw [natDigits_four h1 h2]; rfl

/-- Strict monotonicity of a two-digit zero-padded field. -/
theorem pad2_mono {a b : ℕ} (h : a < b) (hb : b < 100) :
    lexLt (digitCodes (pad2 a)) (digitCodes (pad2 b)) = true := by
  simp only [pad2, digitCodes, List.map]
  rcases Nat.lt_trichotomy (a / 10) (b / 10) with hd | hd | hd
  · simp [lexLt]; omega
  · have : a % 10 < b % 10 := by omega
    simp [lexLt]; omega
  · omega

theorem daysInMonth_le31 (leap : Bool) (m : ℕ) : daysInMonth leap m ≤ 31 := by
  unfold daysInMonth
  split
  · split <;> omega
  · split <;> omega

theorem timeCodes_length (sod : ℕ) : (timeCodes sod).length = 8 := rfl

/-- The date part renders with fixed width 10 for years in 1000..9999. -/
theorem dateCodes_length {d : ℕ} (h1 : 1000 ≤ (yearSplit d).1) (h2 : (yearSplit d).1 ≤ 9999) :
    (dateCodes d).length = 10 := by
  simp [dateCodes, dateOfDays, natDigits_four h1 h2, digitCodes, pad2]

theorem yearSplit_fst_mono {d₁ d₂ : ℕ} (h : d₁ ≤ d₂) :
    (yearSplit d₁).1 ≤ (yearSplit d₂).1 := by
  rcases Nat.eq_or_lt_of_le h with h' | h'
  · rw [h']
  · rcases yearSplit_mono h' with h'' | ⟨h'', _⟩
    · exact le_of_lt h''
    · exact le_of_eq h''

/-- Strict monotonicity of the rendered date for day numbers whose years
lie in 1000..9999. -/
theorem dateCodes_mono {d₁ d₂ : ℕ} (h : d₁ < d₂)
    (hy1 : 1000 ≤ (yearSplit d₁).1) (hy2 : (yearSplit d₂).1 ≤ 9999) :
    lexLt (dateCodes d₁) (dateCodes d₂) = true := by
  have hy12 : (yearSplit d₁).1 ≤ (yearSplit d₂).1 := yearSplit_fst_mono (le_of_lt h)
  simp only [dateCodes, dateOfDays, List.append_assoc]
  rcases yearSplit_mono h with hy | ⟨hyeq, hdoy⟩
  · -- years differ: the four year digits already decide the comparison
    exact lexLt_append_of_lt (yearCodes_mono hy1 hy hy2)
      (by rw [natDigits_four_length hy1 (by omega), natDigits_four_length (by omega) hy2]) _ _
  · -- same year: equal year digits, compare month then day-of-month
    rw [hyeq, lexLt_append_congr, lexLt_append_congr]
    have hdoy2 : (yearSplit d₂).2 < 366 :=
      lt_of_lt_of_le (yearSplit_doy_lt d₂) (daysInYear_le _)
    have hspec2 := monthSplit_spec (isLeap (yearSplit d₂).1) (yearSplit d₂).2
      (by have := yearSplit_doy_lt d₂; rwa [daysInYear] at this)
    rcases monthSplit_mono (isLeap (yearSplit d₂).1) hdoy hdoy2 with hm | ⟨hmeq, hday⟩
    · exact lexLt_append_of_lt (pad2_mono hm (by omega)) rfl _ _
    · rw [hmeq, lexLt_append_congr, lexLt_append_congr]
      have hb := daysInMonth_le31 (isLeap (yearSplit d₂).1)
        (monthSplit (isLeap (yearSplit d₂).1) (yearSplit d₂).2).1
      exact pad2_mono (by omega) (by omega)

/-- Strict monotonicity of the rendered `HH:MM:SS` within a day. -/
theorem timeCodes_mono {s₁ s₂ : ℕ} (h : s₁ < s₂) (hb : s₂ < 86400) :
    lexLt (timeCodes s₁) (timeCodes s₂) = true := by
  simp only [timeCodes, List.append_assoc]
  rcases Nat.lt_trichotomy (s₁ / 3600) (s₂ / 3600) with hh | hh | hh
  · exact lexLt_append_of_lt (pad2_mono hh (by omega)) rfl _ _
  · rw [hh, lexLt_append_congr, lexLt_append_congr]
    rcases Nat.lt_trichotomy (s₁ % 3600 / 60) (s₂ % 3600 / 60) with hm | hm | hm
    · exact lexLt_append_of_lt (pad2_mono hm (by omega)) rfl _ _
    · rw [hm, lexLt_append_congr, lexLt_append_congr]
      exact pad2_mono (by omega) (by omega)
    · omega
  · omega

/-- Strict monotonicity of the full rendered timestamp: chronologically
later instants render to lexicographically larger strings, provided both
years lie in the fixed-width range 1000..9999. -/
theorem renderInstant_mono {t₁ t₂ : ℕ} (h : t₁ < t₂)
    (hy1 : 1000 ≤ yearOfInstant t₁) (hy2 : yearOfInstant t₂ ≤ 9999) :
    lexLt (renderInstant t₁) (renderInstant t₂) = true := by
  unfold renderInstant
  unfold yearOfInstant at hy1 hy2
  simp only [List.append_assoc]
  have hdle : t₁ / 86400 ≤ t₂ / 86400 := Nat.div_le_div_right (le_of_lt h)
  have hymono := yearSplit_fst_mono hdle
  rcases Nat.lt_or_ge (t₁ / 86400) (t₂ / 86400) with hd | hd
  · exact lexLt_append_of_lt (dateCodes_mono hd hy1 hy2)
      (by rw [dateCodes_length hy1 (by omega), dateCodes_length (by omega) hy2]) _ _
  · have hdeq : t₁ / 86400 = t₂ / 86400 := le_antisymm hdle hd
    rw [hdeq, lexLt_append_congr, lexLt_append_congr]
    have hs : t₁ % 86400 < t₂ % 86400 := by omega
    exact lexLt_append_of_lt (timeCodes_mono hs (by omega))
      (by rw [timeCodes_length, timeCodes_length]) _ _

theorem lexLe_antisymm : ∀ {x y : List ℕ}, lexLe x y = true → lexLe y x = true → x = y := by
  intro x
  induction x with
  | nil =>
    intro y _ h2
    cases y with
    | nil => rfl
    | cons b bs => simp [lexLe] at h2
  | cons a as ih =>
    intro y h1 h2
    cases y with
    | nil => simp [lexLe] at h1
    | cons b bs =>
      simp only [lexLe] at h1 h2
      by_cases hab : a < b
      · simp [Nat.lt_asymm hab, hab] at h2
      · by_cases hba : b < a
        · simp [hab, hba] at h1
        · have hab' : a = b := by omega
          subst hab'
          simp only [lt_self_iff_false, if_false] at h1 h2
          rw [ih h1 h2]

/-- Order coincidence: for whole-second instants whose years lie in
1000..9999, Python's string `<=` on the rendered timestamps agrees with
chronological order. -/
theorem renderInstant_le_iff {t₁ t₂ : ℕ}
    (h11 : 1000 ≤ yearOfInstant t₁) (h12 : yearOfInstant t₁ ≤ 9999)
    (h21 : 1000 ≤ yearOfInstant t₂) (h22 : yearOfInstant t₂ ≤ 9999) :
    (lexLe (renderInstant t₁) (renderInstant t₂) = true ↔ t₁ ≤ t₂) := by
  constructor
  · intro hle
    by_contra hlt
    have h21' : t₂ < t₁ := Nat.lt_of_not_le hlt
    have := renderInstant_mono h21' h21 h12
    rcases lexLt_iff_le_ne.mp this with ⟨hle', hne⟩
    exact hne (lexLe_antisymm hle' hle)
  · intro hle
    rcases Nat.eq_or_lt_of_le hle with h' | h'
    · rw [h']; exact lexLe_refl _
    · exact (lexLt_iff_le_ne.mp (renderInstant_mono h' h11 h22)).1

/-! ## Value synthesizer (`generate_mock_value`, utils.py)

Python floats are modelled as exact rationals.  `round(x, 2)` is decimal
rounding to 2 places with ties to even (banker's rounding); `int(x)`
truncates toward zero; `random.uniform(a,b)` is `a + (b-a)*u` for a unit
draw `u ∈ [0,1)`; `random.randint(a,b)` raises `ValueError` when
`a > b`; `random.choice` picks an arbitrary index into a non-empty list
and raises `IndexError` on an empty one. -/

/-- Round-half-to-even to an integer (Python's `round` on our exact
rational model of floats). -/
def pyRoundHalfEven (q : ℚ) : ℤ :=
  if q - ⌊q⌋ < 1/2 then ⌊q⌋
  else if 1/2 < q - ⌊q⌋ then ⌊q⌋ + 1
  else if ⌊q⌋ % 2 = 0 then ⌊q⌋ else ⌊q⌋ + 1

/-- Python `round(x, 2)`. -/
def pyRound2 (q : ℚ) : ℚ := (pyRoundHalfEven (q * 100) : ℚ) / 100

/-- Python `int(x)`: truncation toward zero. -/
def pyTrunc (q : ℚ) : ℤ := if 0 ≤ q then ⌊q⌋ else ⌈q⌉

/-- Python `random.uniform(a, b)` for unit draw `u`. -/
def pyUniform (a b u : ℚ) : ℚ := a + (b - a) * u

/-- Python `random.randint(a, b)` for integer draw `v`: any value of
`a + v % (b-a+1)` with `v` arbitrary covers exactly `a..b`; raises
`ValueError` when `a > b`. -/
def pyRandint (a b v : ℤ) : Except Unit ℤ :=
  if a ≤ b then .ok (a + v % (b - a + 1)) else .error ()

/-- Python `random.choice` for index draw `i`. -/
def pyChoice {α : Type} (l : List α) (i : ℕ) : Except Unit α :=
  match l with
  | [] => .error ()
  | x :: xs => .ok ((x :: xs).get ⟨i % (xs.length + 1), Nat.mod_lt _ (Nat.succ_pos _)⟩)

theorem floor_le_pyRoundHalfEven (q : ℚ) : ⌊q⌋ ≤ pyRoundHalfEven q := by
  unfold pyRoundHalfEven
  split
  · exact le_refl _
  · split
    · omega
    · split <;> omega

theorem pyRoundHalfEven_le_floor_add_one (q : ℚ) : pyRoundHalfEven q ≤ ⌊q⌋ + 1 := by
  unfold pyRoundHalfEven
  split
  · omega
  · split
    · omega
    · split <;> omega

theorem pyRoundHalfEven_intCast (z : ℤ) : pyRoundHalfEven (z : ℚ) = z := by
  unfold pyRoundHalfEven
  rw [Int.floor_intCast]
  norm_num

theorem pyRoundHalfEven_mono {x y : ℚ} (h : x ≤ y) :
    pyRoundHalfEven x ≤ pyRoundHalfEven y := by
  have hf : ⌊x⌋ ≤ ⌊y⌋ := Int.floor_le_floor h
  rcases lt_or_eq_of_le hf with hlt | heq
  · calc pyRoundHalfEven x ≤ ⌊x⌋ + 1 := pyRoundHalfEven_le_floor_add_one x
      _ ≤ ⌊y⌋ := by omega
      _ ≤ pyRoundHalfEven y := floor_le_pyRoundHalfEven y
  · unfold pyRoundHalfEven
    rw [← heq]
    have hfr : x - (⌊x⌋ : ℚ) ≤ y - (⌊x⌋ : ℚ) := by linarith
    split_ifs <;> first | omega | linarith

theorem pyRound2_mono {x y : ℚ} (h : x ≤ y) : pyRound2 x ≤ pyRound2 y := by
  unfold pyRound2
  have := pyRoundHalfEven_mono (mul_le_mul_of_nonneg_right h (by norm_num : (0:ℚ) ≤ 100))
  have hc : (pyRoundHalfEven (x * 100) : ℚ) ≤ (pyRoundHalfEven (y * 100) : ℚ) := by
    exact_mod_cast this
  linarith

/-- `round(x, 2)` fixes every rational with denominator dividing 100. -/
theorem pyRound2_fixed (z : ℤ) : pyRound2 ((z : ℚ) / 100) = (z : ℚ) / 100 := by
  unfold pyRound2
  have : (z : ℚ) / 100 * 100 = (z : ℚ) := by field_simp
  rw [this, pyRoundHalfEven_intCast]

theorem pyUniform_mem {a b u : ℚ} (hab : a ≤ b) (h0 : 0 ≤ u) (h1 : u ≤ 1) :
    a ≤ pyUniform a b u ∧ pyUniform a b u ≤ b := by
  unfold pyUniform
  constructor
  · nlinarith
  · nlinarith

theorem pyRandint_mem {a b : ℤ} (v : ℤ) (hab : a ≤ b) :
    ∃ z, pyRandint a b v = .ok z ∧ a ≤ z ∧ z ≤ b := by
  unfold pyRandint
  rw [if_pos hab]
  refine ⟨a + v % (b - a + 1), rfl, ?_, ?_⟩
  · have := Int.emod_nonneg v (by omega : b - a + 1 ≠ 0)
    omega
  · have := Int.emod_lt_of_pos v (by omega : 0 < b - a + 1)
    omega

/-- Every value of `a..b` is hit by some draw (`randint` has full
support on the inclusive range). -/
theorem pyRandint_surj {a b z : ℤ} (ha : a ≤ z) (hz : z ≤ b) :
    pyRandint a b (z - a) = .ok z := by
  unfold pyRandint
  rw [if_pos (by omega)]
  have : (z - a) % (b - a + 1) = z - a := Int.emod_eq_of_lt (by omega) (by omega)
  rw [this]
  congr 1
  omega

/-- A Python runtime value as it appears in generated packets. -/
inductive PyVal where
  | float (q : ℚ)
  | int (z : ℤ)
  | bool (b : Bool)
  | str (s : PyStr)
  | none
deriving DecidableEq

instance {ε α : Type} [DecidableEq ε] [DecidableEq α] : DecidableEq (Except ε α) := fun x y =>
  match x, y with
  | .ok a, .ok b =>
    if h : a = b then isTrue (by rw [h]) else isFalse (by intro hc; cases hc; exact h rfl)
  | .ok _, .error _ => isFalse (by intro hc; cases hc)
  | .error _, .ok _ => isFalse (by intro hc; cases hc)
  | .error e, .error f =>
    if h : e = f then isTrue (by rw [h]) else isFalse (by intro hc; cases hc; exact h rfl)

/-- One bundle of random draws consumed by a single
`generate_mock_value` call: a unit draw for `uniform`, an integer draw
for `randint`, and an index draw for `choice`. -/
structure Draws where
  unit : ℚ
  intv : ℤ
  idx : ℕ

/-- A `data_points` row as the generator pages see it (`sqlite3.Row`
with parsed JSON list fields; an unparsable or NULL `identifiers` field
is modelled as the empty list, which the code treats identically). -/
structure DataPoint where
  id : ℕ
  name : PyStr
  identifiers : List PyStr
  asset_types : List PyStr
  data_type : PyStr
  range_min : Option ℚ
  range_max : Option ℚ
  string_options : Option PyStr
deriving DecidableEq

/-- `generate_mock_value` (utils.py): synthesize one value for a data
point from the given draws. -/
def generate_mock_value (dp : DataPoint) (r : Draws) : Except Unit PyVal :=
  if dp.data_type = pys "float" then
    .ok (.float (pyRound2 (pyUniform (dp.range_min.getD 0) (dp.range_max.getD 100) r.unit)))
  else if dp.data_type = pys "int" then
    match pyRandint (pyTrunc (dp.range_min.getD 0)) (pyTrunc (dp.range_max.getD 100)) r.intv with
    | .ok z => .ok (.int z)
    | .error e => .error e
  else if dp.data_type = pys "boolean" then
    .ok (.bool (r.idx % 2 = 0))
  else if dp.data_type = pys "string" then
    match dp.string_options with
    | some so =>
      if so ≠ [] then
        match pyChoice ((splitComma so).map pyStrip) r.idx with
        | .ok s => .ok (.str s)
        | .error e => .error e
      else .ok (.str (pys "Sample String"))
    | Option.none => .ok (.str (pys "Sample String"))
  else .ok .none

/-- A data point that cannot make `generate_mock_value` raise: the only
raising case is `int` with truncated lower bound above the truncated
upper bound. -/
def dpSafe (dp : DataPoint) : Prop :=
  dp.data_type = pys "int" →
    pyTrunc (dp.range_min.getD 0) ≤ pyTrunc (dp.range_max.getD 100)

instance (dp : DataPoint) : Decidable (dpSafe dp) := by
  unfold dpSafe; infer_instance

/-- Safe data points always synthesize a value. -/
theorem generate_mock_value_ok (dp : DataPoint) (r : Draws) (h : dpSafe dp) :
    ∃ v, generate_mock_value dp r = .ok v := by
  unfold generate_mock_value
  split
  · exact ⟨_, rfl⟩
  split
  · rename_i hnf hint
    obtain ⟨z, hz, _, _⟩ := pyRandint_mem r.intv (h hint)
    rw [hz]
    exact ⟨_, rfl⟩
  split
  · exact ⟨_, rfl⟩
  split
  · rcases hopt : dp.string_options with _ | so
    · simp only [hopt]
      exact ⟨_, rfl⟩
    · simp only [hopt]
      rcases hl : (splitComma so).map pyStrip with _ | ⟨x, xs⟩
      · exact absurd (List.map_eq_nil.mp hl) (splitComma_ne_nil so)
      · simp only [hl, pyChoice]
        split <;> exact ⟨_, rfl⟩
  · exact ⟨_, rfl⟩

/-! ## Packet assembly

`key = json.loads(dp['identifiers'])[0] if … else dp['name'].replace(" ", "_").lower()`
and the two packet shapes (envelope for the single-source page, flat for
the multi-source page). -/

/-- Packet field key of a data point: first identifier, else the slug of
the name (spaces to underscores, lower-cased). -/
def keyOf (dp : DataPoint) : PyStr :=
  match dp.identifiers with
  | k :: _ => k
  | [] => (dp.name.map fun c => if c = ' ' then '_' else c).map Char.toLower

/-- Build the key→value map for one packet: one `generate_mock_value`
call per matching data point, with its own draw bundle `rdp j`. -/
def buildParams (rdp : ℕ → Draws) : ℕ → List DataPoint → Except Unit (List (PyStr × PyVal))
  | _, [] => .ok []
  | j, dp :: rest =>
    match generate_mock_value dp (rdp j) with
    | .ok v =>
      match buildParams rdp (j + 1) rest with
      | .ok tail => .ok ((keyOf dp, v) :: tail)
      | .error e => .error e
    | .error e => .error e

theorem buildParams_ok (rdp : ℕ → Draws) (dps : List DataPoint)
    (hsafe : ∀ dp ∈ dps, dpSafe dp) :
    ∀ j, ∃ l, buildParams rdp j dps = .ok l := by
  induction dps with
  | nil => intro j; exact ⟨[], rfl⟩
  | cons dp rest ih =>
    intro j
    obtain ⟨v, hv⟩ := generate_mock_value_ok dp (rdp j) (hsafe dp (by simp))
    obtain ⟨tail, htail⟩ := ih (fun d hd => hsafe d (by simp [hd])) (j + 1)
    exact ⟨(keyOf dp, v) :: tail, by simp [buildParams, hv, htail]⟩

/-- The inner `sii` object of an envelope packet. -/
structure SiiData where
  tmsp : List ℕ
  evc : ℕ
  tms : List ℕ
  fields : List (PyStr × PyVal)
deriving DecidableEq

/-- The single-source envelope packet (`single_packet_json` in
generator.py); `ext` is its single element, flattened as `extVer`/`sii`. -/
structure EnvPacket where
  ver : PyStr
  pld : PyStr
  svc : PyStr
  aid : PyStr
  eid : PyStr
  dvt : PyStr
  dvm : PyStr
  evt : PyStr
  tms : List ℕ
  evc : PyStr
  seqid : ℕ
  alt : PyVal
  extVer : PyStr
  sii : SiiData
deriving DecidableEq

/-- Assemble one envelope packet at instant `t` with sequence id `seq`. -/
def mkEnvPacket (pld : PyStr) (t seq : ℕ) (fields : List (PyStr × PyVal)) : EnvPacket :=
  { ver := pys "1.0", pld := pld, svc := pys "svc33338597", aid := pys "A173378384",
    eid := pys "2109801", dvt := pys "jvt1443", dvm := pys "JVT1443", evt := pys "EV",
    tms := renderInstant t, evc := pys "300", seqid := seq, alt := PyVal.none,
    extVer := pys "3.0",
    sii := { tmsp := renderInstant t, evc := 300, tms := renderInstant t, fields := fields } }

/-- The flat multi-source packet. -/
structure FlatPacket where
  pld : PyStr
  asset_type : PyStr
  timestamp : List ℕ
  parameters : List (PyStr × PyVal)
deriving DecidableEq

/-! ## Single-source generator (`generator_page`, app_pages/generator.py)

The `while current_time <= end_datetime` loop; `fuel` merely bounds the
recursion and is chosen larger than the iteration count, so the embedded
function equals the Python loop. -/

/-- `get_data_points_by_asset_type` (database.py): rows whose parsed
`asset_types` list contains the target name. -/
def get_data_points_by_asset_type (store : List DataPoint) (target : PyStr) : List DataPoint :=
  store.filter (fun dp => decide (target ∈ dp.asset_types))

/-- The generation `while` loop: emit a packet at `cur`, step by
`step` seconds and increment the sequence id, until `cur > endSec`. -/
def genLoop (rand2 : ℕ → ℕ → Draws) (dps : List DataPoint) (pld : PyStr)
    (endSec step : ℕ) : ℕ → ℕ → ℕ → Except Unit (List EnvPacket)
  | 0, _, _ => .ok []
  | fuel + 1, cur, seq =>
    if cur ≤ endSec then
      match buildParams (rand2 seq) 0 dps with
      | .ok fields =>
        match genLoop rand2 dps pld endSec step fuel (cur + step) (seq + 1) with
        | .ok rest => .ok (mkEnvPacket pld cur seq fields :: rest)
        | .error e => .error e
      | .error e => .error e
    else .ok []

/-- Outcome of one submission of the single-source generator form. -/
inductive SingleOutcome where
  | errMissingPld
  | errDateOrder
  | warnNoDps
  | generated (ps : List EnvPacket)
deriving DecidableEq

/-- One submitted run of the single-source generator page: `pld` and the
date order are validated, matching data points fetched, and the fixed
interval loop run from `start_date 00:00` to `end_date 23:59` stepping
`freq` minutes.  `startDay`/`endDay` are day numbers of the picked
dates. -/
def singleRun (store : List DataPoint) (rand2 : ℕ → ℕ → Draws) (pld assetName : PyStr)
    (startDay endDay freq : ℕ) : Except Unit SingleOutcome :=
  if pld = [] then .ok .errMissingPld
  else if endDay < startDay then .ok .errDateOrder
  else
    match get_data_points_by_asset_type store assetName with
    | [] => .ok .warnNoDps
    | dp :: dps =>
      match genLoop rand2 (dp :: dps) pld (endDay * 86400 + 86340) (freq * 60)
          (endDay * 86400 + 86342) (startDay * 86400) 1 with
      | .ok ps => .ok (.generated ps)
      | .error e => .error e

/-- Closed form of the generation loop: with enough fuel and safe data
points it succeeds and emits one packet per tick `cur + i*step ≤ endSec`,
with consecutive sequence ids. -/
theorem genLoop_spec (rand2 : ℕ → ℕ → Draws) (dps : List DataPoint) (pld : PyStr)
    (endSec step : ℕ) (hstep : 0 < step) (hsafe : ∀ dp ∈ dps, dpSafe dp) :
    ∀ fuel cur seq, endSec + 1 - cur ≤ fuel * step →
      ∃ ps, genLoop rand2 dps pld endSec step fuel cur seq = .ok ps ∧
        ps.length = (if cur ≤ endSec then (endSec - cur) / step + 1 else 0) ∧
        ∀ i (hi : i < ps.length),
          (ps.get ⟨i, hi⟩).seqid = seq + i ∧
          (ps.get ⟨i, hi⟩).tms = renderInstant (cur + i * step) ∧
          (ps.get ⟨i, hi⟩).pld = pld := by
  intro fuel
  induction fuel with
  | zero =>
    intro cur seq h
    simp only [Nat.zero_mul] at h
    have hc : ¬ cur ≤ endSec := by omega
    refine ⟨[], rfl, by simp [hc], ?_⟩
    intro i hi
    simp at hi
  | succ fuel ih =>
    intro cur seq h
    by_cases hc : cur ≤ endSec
    · obtain ⟨fields, hf⟩ := buildParams_ok (rand2 seq) dps hsafe 0
      have hrec : endSec + 1 - (cur + step) ≤ fuel * step := by
        have hx : (fuel + 1) * step = fuel * step + step := Nat.succ_mul fuel step
        omega
      obtain ⟨rest, hr, hlen, hget⟩ := ih (cur + step) (seq + 1) hrec
      refine ⟨mkEnvPacket pld cur seq fields :: rest, ?_, ?_, ?_⟩
      · simp [genLoop, hc, hf, hr]
      · simp only [List.length_cons, hlen]
        by_cases hc2 : cur + step ≤ endSec
        · rw [if_pos hc2, if_pos hc]
          have h1 : step ≤ endSec - cur := by omega
          have h2 : endSec - (cur + step) = endSec - cur - step := by omega
          rw [h2, ← Nat.div_eq_sub_div hstep h1]
        · rw [if_neg hc2, if_pos hc]
          have h0 : (endSec - cur) / step = 0 := Nat.div_eq_of_lt (by omega)
          rw [h0]
      · intro i hi
        cases i with
        | zero =>
          refine ⟨by simp [mkEnvPacket], ?_, by simp [mkEnvPacket]⟩
          simp [mkEnvPacket]
        | succ i =>
          have hi' : i < rest.length := by simpa using hi
          obtain ⟨hseq, htms, hpld⟩ := hget i hi'
          have hgx : (mkEnvPacket pld cur seq fields :: rest).get ⟨i + 1, hi⟩ = rest.get ⟨i, hi'⟩ := rfl
          rw [hgx, hseq, htms, hpld]
          refine ⟨by omega, ?_, rfl⟩
          have : cur + step + i * step = cur + (i + 1) * step := by ring
          rw [this]
    · refine ⟨[], by simp [genLoop, hc], by simp [hc], ?_⟩
      intro i hi
      simp at hi

/-! ## Multi-source generator (`multi_json_generator_page`,
pages/multi_json_generator.py)

Per selected asset type: validate its source (PLD) ids and frequency,
fetch matching data points, compute the packet count from the window and
the asset's own frequency, emit that count per source id, then merge all
packets and sort by the rendered timestamp string.

`total_seconds` is `(combine(end_date, time.max) - combine(start_date,
time.min)).total_seconds()`, which is exact in microseconds; it is
modelled by `totalMicros` (for `start_date ≤ end_date`, the only case
the claims concern). -/

/-- `[pld.strip() for pld in plds if pld.strip()]`. -/
def cleanedPlds (plds : List PyStr) : List PyStr :=
  (plds.map pyStrip).filter (fun s => decide (s ≠ []))

/-- The window length in microseconds (start-of-day of `startDay` to
`time.max` of `endDay`), for `startDay ≤ endDay`. -/
def totalMicros (startDay endDay : ℕ) : ℕ :=
  (endDay - startDay) * 86400000000 + 86399999999

/-- `num_packets`: 1 if the window is shorter than the interval, else
`int(total_seconds / interval_seconds)` (floor, as both are positive). -/
def numPackets (startDay endDay freq : ℕ) : ℕ :=
  if totalMicros startDay endDay < freq * 60 * 1000000 then 1
  else totalMicros startDay endDay / (freq * 60 * 1000000)

/-- The `for i in range(num_packets)` loop for one source id, carrying
the running packet index `i`. -/
def flatLoop (rand2 : ℕ → ℕ → Draws) (dps : List DataPoint) (assetName pld : PyStr)
    (startSec intervalSec : ℕ) : ℕ → ℕ → Except Unit (List FlatPacket)
  | _, 0 => .ok []
  | i, n + 1 =>
    match buildParams (rand2 i) 0 dps with
    | .ok params =>
      match flatLoop rand2 dps assetName pld startSec intervalSec (i + 1) n with
      | .ok rest =>
        .ok ({ pld := pld, asset_type := assetName,
               timestamp := renderInstant (startSec + i * intervalSec),
               parameters := params } :: rest)
      | .error e => .error e
    | .error e => .error e

/-- The `for pld_id in cleaned_plds` loop, with a draw family per source
position. -/
def pldLoop (rand3 : ℕ → ℕ → ℕ → Draws) (dps : List DataPoint) (assetName : PyStr)
    (startSec intervalSec n : ℕ) : ℕ → List PyStr → Except Unit (List FlatPacket)
  | _, [] => .ok []
  | j, pld :: rest =>
    match flatLoop (rand3 j) dps assetName pld startSec intervalSec 0 n with
    | .ok ps =>
      match pldLoop rand3 dps assetName startSec intervalSec n (j + 1) rest with
      | .ok qs => .ok (ps ++ qs)
      | .error e => .error e
    | .error e => .error e

/-- What one selected asset type contributes to the run: its packets and
whether it raised the blocking validation error (`st.error` +
`has_errors = True`) or only the non-fatal no-data-points warning. -/
structure AssetResult where
  packets : List FlatPacket
  isError : Bool
  isWarning : Bool
deriving DecidableEq

/-- Configuration of one selected asset type: its name, raw PLD inputs,
frequency (minutes), and the random draw family `rand pldIdx packetIdx
dpIdx` its generation consumes. -/
structure AssetCfg where
  name : PyStr
  plds : List PyStr
  freq : ℕ
  rand : ℕ → ℕ → ℕ → Draws

/-- Processing of one selected asset type inside the submission loop
(pages/multi_json_generator.py, lines 74-117). -/
def runAsset (store : List DataPoint) (startDay endDay : ℕ) (a : AssetCfg) :
    Except Unit AssetResult :=
  match cleanedPlds a.plds with
  | [] => .ok ⟨[], true, false⟩
  | pld :: plds' =>
    match get_data_points_by_asset_type store a.name with
    | [] => .ok ⟨[], false, true⟩
    | dp :: dps' =>
      if a.freq = 0 then .ok ⟨[], true, false⟩
      else
        match pldLoop a.rand (dp :: dps') a.name (startDay * 86400)
            (a.freq * 60) (numPackets startDay endDay a.freq) 0 (pld :: plds') with
        | .ok ps => .ok ⟨ps, false, false⟩
        | .error e => .error e

/-- The submission loop over all selected asset types, accumulating
`all_packets` and `has_errors`. -/
def multiScan (store : List DataPoint) (startDay endDay : ℕ) :
    List AssetCfg → Except Unit (List FlatPacket × Bool)
  | [] => .ok ([], false)
  | a :: rest =>
    match runAsset store startDay endDay a with
    | .ok r =>
      match multiScan store startDay endDay rest with
      | .ok pr => .ok (r.packets ++ pr.1, r.isError || pr.2)
      | .error e => .error e
    | .error e => .error e

/-- Sort key comparison: ascending by rendered `timestamp` string. -/
def timLe (p q : FlatPacket) : Bool := lexLe p.timestamp q.timestamp

/-- The produced output of one multi-source submission: the
timestamp-sorted merged list when no asset type had a validation error
and at least one packet was generated, nothing otherwise. -/
def multiOutput (store : List DataPoint) (startDay endDay : ℕ) (assets : List AssetCfg) :
    Except Unit (Option (List FlatPacket)) :=
  match multiScan store startDay endDay assets with
  | .ok pr =>
    .ok (if pr.2 = false ∧ pr.1 ≠ [] then some (pr.1.mergeSort timLe) else Option.none)
  | .error e => .error e

/-- The count the code computes from the `time.max`-based window in
microseconds equals the specification's count computed from
`end_of_day(end) - start_of_day(start)` with day-end 23:59:00 (in
seconds): the two agree for every window and frequency because
intervals are whole multiples of 60 seconds. -/
theorem numPackets_eq_spec (s e f : ℕ) (hse : s ≤ e) (hf : 1 ≤ f) :
    numPackets s e f =
      (if (e - s) * 86400 + 86340 < f * 60 then 1
       else ((e - s) * 86400 + 86340) / (f * 60)) := by
  unfold numPackets
  have hbranch : (totalMicros s e < f * 60 * 1000000) ↔ ((e - s) * 86400 + 86340 < f * 60) := by
    unfold totalMicros
    omega
  by_cases hlt : (e - s) * 86400 + 86340 < f * 60
  · rw [if_pos hlt, if_pos (hbranch.mpr hlt)]
  · rw [if_neg hlt, if_neg (fun hc => hlt (hbranch.mp hc))]
    -- M is the full-days length of the window in seconds
    obtain ⟨M, hM⟩ : ∃ M, M = (e - s + 1) * 86400 := ⟨_, rfl⟩
    have hMtot : totalMicros s e = M * 1000000 - 1 ∧ 86400 ≤ M := by
      unfold totalMicros; omega
    have hT : (e - s) * 86400 + 86340 = M - 60 := by omega
    obtain ⟨hμ, hM86400⟩ := hMtot
    obtain ⟨q, hq⟩ : ∃ q, q = M / (f * 60) := ⟨_, rfl⟩
    obtain ⟨r, hr⟩ : ∃ r, r = M % (f * 60) := ⟨_, rfl⟩
    have hrlt : r < f * 60 := by rw [hr]; exact Nat.mod_lt _ (by omega)
    have hqr : M = f * 60 * q + r := by
      rw [hq, hr]; exact (Nat.div_add_mod M (f * 60)).symm
    have hdvd : 60 ∣ r := by
      have h60M : 60 ∣ M := by omega
      have h60I : (60 : ℕ) ∣ f * 60 * q := ⟨f * q, by ring⟩
      rw [hr]
      exact (Nat.dvd_mod_iff (by omega : (60:ℕ) ∣ f * 60)).mpr h60M
    have hge : f * 60 ≤ M - 60 + 1 := by omega
    rw [hμ, hT]
    rcases Nat.eq_zero_or_pos r with hr0 | hrpos
    · -- interval divides the window exactly: both counts are q - 1
      subst hr0
      have hq1 : 1 ≤ q := by
        rcases Nat.eq_zero_or_pos q with h0 | h1
        · subst h0; simp at hqr; omega
        · exact h1
      obtain ⟨q', hq'⟩ : ∃ q', q = q' + 1 := ⟨q - 1, by omega⟩
      subst hq'
      have hMq : M = q' * (f * 60) + f * 60 := by rw [hqr]; ring
      have e1 : M * 1000000 = q' * (f * 60 * 1000000) + f * 60 * 1000000 := by
        rw [hMq]; ring
      have e2 : (q' + 1) * (f * 60 * 1000000) = q' * (f * 60 * 1000000) + f * 60 * 1000000 := by
        ring
      have d1 : (M * 1000000 - 1) / (f * 60 * 1000000) = q' :=
        Nat.div_eq_of_lt_le (by omega) (by omega)
      have e3 : q' * (f * 60) + (f * 60) = (q' + 1) * (f * 60) := by ring
      have d2 : (M - 60) / (f * 60) = q' :=
        Nat.div_eq_of_lt_le (by omega) (by omega)
      rw [d1, d2]
    · -- a positive remainder, necessarily at least 60: both counts are q
      have hr60 : 60 ≤ r := Nat.le_of_dvd hrpos hdvd
      have e1 : M * 1000000 = q * (f * 60 * 1000000) + r * 1000000 := by
        rw [hqr]; ring
      have e2 : (q + 1) * (f * 60 * 1000000) = q * (f * 60 * 1000000) + f * 60 * 1000000 := by
        ring
      have hrmul : r * 1000000 < f * 60 * 1000000 := by omega
      have d1 : (M * 1000000 - 1) / (f * 60 * 1000000) = q :=
        Nat.div_eq_of_lt_le (by omega) (by omega)
      have e3 : (q + 1) * (f * 60) = q * (f * 60) + f * 60 := by ring
      have e4 : M - 60 = q * (f * 60) + (r - 60) := by
        have : q * (f * 60) = f * 60 * q := by ring
        omega
      have d2 : (M - 60) / (f * 60) = q :=
        Nat.div_eq_of_lt_le (by omega) (by omega)
      rw [d1, d2]

/-- Closed form of the per-source packet loop: with safe data points it
emits exactly `n` packets, the `k`-th timestamped
`startSec + (i+k)*intervalSec`. -/
theorem flatLoop_spec (rand2 : ℕ → ℕ → Draws) (dps : List DataPoint)
    (assetName pld : PyStr) (startSec intervalSec : ℕ)
    (hsafe : ∀ dp ∈ dps, dpSafe dp) :
    ∀ n i, ∃ ps, flatLoop rand2 dps assetName pld startSec intervalSec i n = .ok ps ∧
      ps.length = n ∧
      ∀ k (hk : k < ps.length),
        (ps.get ⟨k, hk⟩).timestamp = renderInstant (startSec + (i + k) * intervalSec) ∧
        (ps.get ⟨k, hk⟩).pld = pld ∧
        (ps.get ⟨k, hk⟩).asset_type = assetName := by
  intro n
  induction n with
  | zero =>
    intro i
    refine ⟨[], rfl, rfl, ?_⟩
    intro k hk
    simp at hk
  | succ n ih =>
    intro i
    obtain ⟨params, hp⟩ := buildParams_ok (rand2 i) dps hsafe 0
    obtain ⟨rest, hr, hlen, hget⟩ := ih (i + 1)
    refine ⟨{ pld := pld, asset_type := assetName,
              timestamp := renderInstant (startSec + i * intervalSec),
              parameters := params } :: rest,
      by simp [flatLoop, hp, hr], by simp [hlen], ?_⟩
    intro k hk
    cases k with
    | zero =>
      refine ⟨?_, rfl, rfl⟩
      simp
    | succ k =>
      have hk' : k < rest.length := by simpa using hk
      obtain ⟨ht, hpld, han⟩ := hget k hk'
      refine ⟨?_, hpld, han⟩
      have hx : (renderInstant (startSec + i * intervalSec))
          = renderInstant (startSec + i * intervalSec) := rfl
      show (rest.get ⟨k, hk'⟩).timestamp = _
      rw [ht]
      have : startSec + (i + 1 + k) * intervalSec = startSec + (i + (k + 1)) * intervalSec := by
        ring
      rw [this]

/-! ## Identifier uniqueness (database.py `check_identifier_uniqueness`
and the add-data-point flow of app_pages/data_points.py) -/

/-- Whether one row blocks identifier `ident`: the row is not the one
being edited, and its parsed identifier list contains `ident` (rows with
NULL/empty/corrupt `identifiers` are modelled with the empty list and
block nothing). -/
def rowBlocks (cur : Option ℕ) (ident : PyStr) (row : DataPoint) : Bool :=
  (match cur with
   | some c => decide (row.id ≠ c)
   | Option.none => true) && decide (ident ∈ row.identifiers)

/-- `check_identifier_uniqueness`: first of the given identifiers that
already occurs in some (other) row, `none` when all are unique. -/
def check_identifier_uniqueness (db : List DataPoint) (identifiers : List PyStr)
    (cur : Option ℕ) : Option PyStr :=
  identifiers.find? (fun ident => db.any (rowBlocks cur ident))

/-- Outcome reported by one submission of the add-data-point form. -/
inductive SubmitOutcome where
  | warnMissing
  | errNameExists
  | errDuplicate (ident : PyStr)
  | success
deriving DecidableEq

/-- One submission of the "Enter New Data Point Details" form
(app_pages/data_points.py, lines 210-225): split/strip the identifiers,
check global identifier uniqueness and name freshness, and either report
the problem (leaving the store unchanged) or append the new row. -/
def data_points_submit (db : List DataPoint) (nextId : ℕ) (name identStr data_type : PyStr)
    (rmin rmax : Option ℚ) (sopts : Option PyStr) (asset_types : List PyStr) :
    SubmitOutcome × List DataPoint :=
  let identifiers := ((splitComma identStr).map pyStrip).filter (fun s => decide (s ≠ []))
  let dup := check_identifier_uniqueness db identifiers Option.none
  let existing := db.find? (fun r => decide (r.name = name))
  if name = [] ∨ data_type = [] ∨ asset_types = [] then (.warnMissing, db)
  else if existing.isSome then (.errNameExists, db)
  else
    match dup with
    | some d => (.errDuplicate d, db)
    | Option.none =>
      (.success, db ++ [⟨nextId, name, identifiers, asset_types, data_type, rmin, rmax, sopts⟩])

/-- `find?` characterization: a `some` result is the first element
satisfying the predicate. -/
theorem find?_first {α : Type} (p : α → Bool) :
    ∀ (l : List α) (a : α), l.find? p = some a →
      p a = true ∧ ∃ pre suf, l = pre ++ a :: suf ∧ ∀ x ∈ pre, p x = false := by
  intro l
  induction l with
  | nil => intro a h; simp [List.find?] at h
  | cons b bs ih =>
    intro a h
    by_cases hb : p b
    · rw [List.find?_cons_of_pos _ hb] at h
      cases h
      exact ⟨hb, [], bs, rfl, by simp⟩
    · rw [List.find?_cons_of_neg _ (by simpa using hb)] at h
      obtain ⟨hpa, pre, suf, hsplit, hpre⟩ := ih a h
      refine ⟨hpa, b :: pre, suf, by rw [hsplit]; rfl, ?_⟩
      intro x hx
      rcases List.mem_cons.mp hx with hx | hx
      · subst hx; simpa using hb
      · exact hpre x hx

/-! ## Claims about the value synthesizer -/

/-- C10: for any data point whose `data_type` is not one of
float/int/boolean/string, `generate_mock_value` returns Python `None`
(a null value) rather than raising, for every random draw. -/
theorem spec_c10 (dp : DataPoint) (r : Draws)
    (h1 : dp.data_type ≠ pys "float") (h2 : dp.data_type ≠ pys "int")
    (h3 : dp.data_type ≠ pys "boolean") (h4 : dp.data_type ≠ pys "string") :
    generate_mock_value dp r = .ok .none := by
  unfold generate_mock_value
  rw [if_neg h1, if_neg h2, if_neg h3, if_neg h4]

/-- A data point with an unknown `data_type`, for the C10 witness. -/
def dpUnknown : DataPoint :=
  ⟨10, pys "c10", [], [], pys "temperature", Option.none, Option.none, Option.none⟩

/-- Witness for C10 at a concrete data point with `data_type =
"temperature"`. -/
theorem spec_c10_witness :
    generate_mock_value dpUnknown ⟨0, 0, 0⟩ = .ok .none :=
  spec_c10 dpUnknown ⟨0, 0, 0⟩ (by decide) (by decide) (by decide) (by decide)

/-- The `int` data point with `range_min = 5 > 3 = range_max` that makes
the synthesizer raise (C7 counterexample). -/
def dpMinAboveMax : DataPoint :=
  ⟨7, pys "c7", [], [], pys "int", some 5, some 3, Option.none⟩

/-- C7 counterexample: the claim says the synthesizer never raises for
the four known types, including when `range_min > range_max`; but for an
`int` data point with `range_min = 5, range_max = 3`,
`random.randint(5, 3)` raises `ValueError`. -/
theorem spec_c7_counterexample :
    dpMinAboveMax.data_type = pys "int" ∧
    generate_mock_value dpMinAboveMax ⟨0, 0, 0⟩ = .error () := by
  constructor
  · decide
  · decide

/-- C7 (amended): the synthesizer never raises for `float`, `boolean`
and `string` data points (malformed or absent bounds and options fall
back to defaults, and a `string` point with no options yields the fixed
`"Sample String"`); an `int` data point raises exactly when the
truncated lower bound exceeds the truncated upper bound. -/
theorem spec_c7_amended (dp : DataPoint) (r : Draws) :
    ((dp.data_type = pys "float" ∨ dp.data_type = pys "boolean" ∨
        dp.data_type = pys "string") → ∃ v, generate_mock_value dp r = .ok v) ∧
    (dp.data_type = pys "string" → dp.string_options = Option.none →
      generate_mock_value dp r = .ok (.str (pys "Sample String"))) ∧
    (dp.data_type = pys "int" →
      pyTrunc (dp.range_min.getD 0) ≤ pyTrunc (dp.range_max.getD 100) →
      ∃ v, generate_mock_value dp r = .ok v) ∧
    (dp.data_type = pys "int" →
      pyTrunc (dp.range_max.getD 100) < pyTrunc (dp.range_min.getD 0) →
      generate_mock_value dp r = .error ()) := by
  refine ⟨?_, ?_, ?_, ?_⟩
  · intro hty
    apply generate_mock_value_ok
    intro hint
    rcases hty with h | h | h <;> rw [h] at hint <;> exact absurd hint (by decide)
  · intro hty hnone
    unfold generate_mock_value
    rw [if_neg (by rw [hty]; decide), if_neg (by rw [hty]; decide),
      if_neg (by rw [hty]; decide), if_pos hty, hnone]
  · intro hty hab
    apply generate_mock_value_ok
    intro _
    exact hab
  · intro hty hab
    unfold generate_mock_value
    rw [if_neg (by rw [hty]; decide), if_pos hty]
    unfold pyRandint
    rw [if_neg (by omega)]

/-- Witness for C7 (amended) at concrete data points: a boolean point
synthesizes, a bare string point yields `"Sample String"`, and an int
point with ordered bounds synthesizes. -/
theorem spec_c7_witness :
    (∃ v, generate_mock_value ⟨1, pys "b", [], [], pys "boolean",
        Option.none, Option.none, Option.none⟩ ⟨0, 0, 0⟩ = .ok v) ∧
    generate_mock_value ⟨2, pys "s", [], [], pys "string",
        Option.none, Option.none, Option.none⟩ ⟨0, 0, 0⟩ = .ok (.str (pys "Sample String")) := by
  constructor
  · exact ((spec_c7_amended _ ⟨0, 0, 0⟩).1 (Or.inr (Or.inl (by decide))))
  · exact ((spec_c7_amended _ ⟨0, 0, 0⟩).2.1 (by decide) rfl)

/-- The `int` data point with `range_min = range_max = -2.5` (C6
counterexample). -/
def dpNegHalf : DataPoint :=
  ⟨6, pys "c6", [], [], pys "int", some (-5/2 : ℚ), some (-5/2 : ℚ), Option.none⟩

theorem pyTrunc_neg_half : pyTrunc ((-5 : ℚ)/2) = -2 := by
  unfold pyTrunc
  rw [if_neg (by norm_num), Int.ceil_eq_iff]
  constructor <;> norm_num

/-- C6 counterexample: the claim says the sampling interval is
`[floor(range_min), floor(range_max)]`; with
`range_min = range_max = -2.5` the claim predicts the value `-3`
(`floor(-2.5) = -3`), but Python's `int()` truncates toward zero, so the
code samples `randint(-2, -2)` and always returns `-2 > floor(-2.5)`. -/
theorem spec_c6_counterexample :
    generate_mock_value dpNegHalf ⟨0, 0, 0⟩ = .ok (.int (-2)) ∧
    ¬ ((-2 : ℤ) ≤ ⌊(-5 : ℚ)/2⌋) := by
  constructor
  · unfold generate_mock_value
    rw [if_neg (by decide), if_pos (by decide)]
    have e1 : dpNegHalf.range_min.getD 0 = (-5 : ℚ)/2 := rfl
    have e2 : dpNegHalf.range_max.getD 100 = (-5 : ℚ)/2 := rfl
    rw [e1, e2, pyTrunc_neg_half]
    decide
  · rw [show ⌊(-5 : ℚ)/2⌋ = -3 by norm_num]
    decide

/-- C6 (amended): for an `int` data point the synthesized value is an
integer drawn from the inclusive interval
`[trunc(range_min or 0), trunc(range_max or 100)]` — `int()` truncation
toward zero, not floor — whenever that interval is non-empty, and every
integer of the interval is reachable by some draw. -/
theorem spec_c6_amended (dp : DataPoint) (r : Draws)
    (hty : dp.data_type = pys "int")
    (hab : pyTrunc (dp.range_min.getD 0) ≤ pyTrunc (dp.range_max.getD 100)) :
    (∃ z, generate_mock_value dp r = .ok (.int z) ∧
      pyTrunc (dp.range_min.getD 0) ≤ z ∧ z ≤ pyTrunc (dp.range_max.getD 100)) ∧
    (∀ z, pyTrunc (dp.range_min.getD 0) ≤ z → z ≤ pyTrunc (dp.range_max.getD 100) →
      ∃ r' : Draws, generate_mock_value dp r' = .ok (.int z)) := by
  constructor
  · obtain ⟨z, hz, h1, h2⟩ := pyRandint_mem r.intv hab
    refine ⟨z, ?_, h1, h2⟩
    unfold generate_mock_value
    rw [if_neg (by rw [hty]; decide), if_pos hty, hz]
  · intro z h1 h2
    refine ⟨⟨0, z - pyTrunc (dp.range_min.getD 0), 0⟩, ?_⟩
    unfold generate_mock_value
    rw [if_neg (by rw [hty]; decide), if_pos hty]
    rw [pyRandint_surj h1 h2]

/-- Witness for C6 (amended) at a concrete `int` data point with bounds
`-2.5 .. 7`: truncation gives the interval `[-2, 7]`. -/
theorem spec_c6_witness :
    ∃ z, generate_mock_value ⟨3, pys "i", [], [], pys "int",
        some (-5/2 : ℚ), some 7, Option.none⟩ ⟨0, 0, 0⟩ = .ok (.int z) ∧
      pyTrunc ((-5 : ℚ)/2) ≤ z ∧ z ≤ pyTrunc 7 := by
  have hab : pyTrunc ((-5 : ℚ)/2) ≤ pyTrunc 7 := by
    rw [pyTrunc_neg_half]
    unfold pyTrunc
    rw [if_pos (by norm_num)]
    rw [show ⌊(7 : ℚ)⌋ = 7 by norm_num]
    decide
  exact (spec_c6_amended ⟨3, pys "i", [], [], pys "int",
      some (-5/2 : ℚ), some 7, Option.none⟩ ⟨0, 0, 0⟩ (by decide) hab).1

/-- The `float` data point with `range_min = range_max = 0.006` (C5
counterexample). -/
def dpTinyFloat : DataPoint :=
  ⟨5, pys "c5", [], [], pys "float", some (3/500 : ℚ), some (3/500 : ℚ), Option.none⟩

theorem pyRound2_tiny : pyRound2 ((3 : ℚ)/500) = 1/100 := by
  unfold pyRound2
  have hfl : ⌊(3 : ℚ)/500 * 100⌋ = 0 := by norm_num
  have hfr : (3 : ℚ)/500 * 100 - (⌊(3 : ℚ)/500 * 100⌋ : ℚ) = 3/5 := by
    rw [hfl]; norm_num
  unfold pyRoundHalfEven
  rw [if_neg (by rw [hfr]; norm_num), if_pos (by rw [hfr]; norm_num), hfl]
  norm_num

/-- C5 counterexample: the claim says the rounded value always lies
within `[range_min, range_max]`; with `range_min = range_max = 0.006`
the uniform sample is exactly 0.006 and `round(0.006, 2) = 0.01`, which
lies above the upper bound. -/
theorem spec_c5_counterexample :
    generate_mock_value dpTinyFloat ⟨0, 0, 0⟩ = .ok (.float (1/100)) ∧
    ¬ ((1 : ℚ)/100 ≤ 3/500) := by
  constructor
  · unfold generate_mock_value
    rw [if_pos (by decide)]
    have e1 : dpTinyFloat.range_min.getD 0 = (3 : ℚ)/500 := rfl
    have e2 : dpTinyFloat.range_max.getD 100 = (3 : ℚ)/500 := rfl
    have hu : pyUniform ((3 : ℚ)/500) ((3 : ℚ)/500) (0 : ℚ) = (3 : ℚ)/500 := by
      unfold pyUniform; ring
    rw [e1, e2]
    show Except.ok (PyVal.float (pyRound2 (pyUniform ((3 : ℚ)/500) ((3 : ℚ)/500) 0))) = _
    rw [hu, pyRound2_tiny]
  · norm_num

/-- C5 (amended): for a `float` data point the synthesized value is the
uniform sample over `[range_min or 0, range_max or 100]` rounded to 2
decimal places; it always has at most 2 decimal digits, and it lies
within `[range_min, range_max]` provided both effective bounds are
themselves multiples of 0.01 (rounding can otherwise escape the range
by up to half a cent). -/
theorem spec_c5_amended (dp : DataPoint) (r : Draws)
    (hty : dp.data_type = pys "float")
    (hab : dp.range_min.getD 0 ≤ dp.range_max.getD 100)
    (h0 : 0 ≤ r.unit) (h1 : r.unit < 1)
    (ha : ∃ za : ℤ, dp.range_min.getD 0 = (za : ℚ) / 100)
    (hb : ∃ zb : ℤ, dp.range_max.getD 100 = (zb : ℚ) / 100) :
    ∃ v : ℚ, generate_mock_value dp r = .ok (.float v) ∧
      dp.range_min.getD 0 ≤ v ∧ v ≤ dp.range_max.getD 100 ∧
      ∃ z : ℤ, v = (z : ℚ) / 100 := by
  refine ⟨pyRound2 (pyUniform (dp.range_min.getD 0) (dp.range_max.getD 100) r.unit), ?_, ?_, ?_, ?_⟩
  · unfold generate_mock_value
    rw [if_pos hty]
  · obtain ⟨za, hza⟩ := ha
    obtain ⟨hlo, _⟩ := pyUniform_mem hab h0 (le_of_lt h1)
    calc dp.range_min.getD 0 = pyRound2 (dp.range_min.getD 0) := by rw [hza, pyRound2_fixed]
    _ ≤ _ := pyRound2_mono hlo
  · obtain ⟨zb, hzb⟩ := hb
    obtain ⟨_, hhi⟩ := pyUniform_mem hab h0 (le_of_lt h1)
    calc pyRound2 (pyUniform (dp.range_min.getD 0) (dp.range_max.getD 100) r.unit)
        ≤ pyRound2 (dp.range_max.getD 100) := pyRound2_mono hhi
    _ = dp.range_max.getD 100 := by rw [hzb, pyRound2_fixed]
  · exact ⟨pyRoundHalfEven (pyUniform (dp.range_min.getD 0) (dp.range_max.getD 100) r.unit * 100), rfl⟩

/-- Witness for C5 (amended) at a concrete `float` data point with
bounds `0.25 .. 0.75` and unit draw `1/3`. -/
theorem spec_c5_witness :
    ∃ v : ℚ, generate_mock_value ⟨4, pys "f", [], [], pys "float",
        some (1/4 : ℚ), some (3/4 : ℚ), Option.none⟩ ⟨1/3, 0, 0⟩ = .ok (.float v) ∧
      (1/4 : ℚ) ≤ v ∧ v ≤ (3/4 : ℚ) ∧ ∃ z : ℤ, v = (z : ℚ) / 100 := by
  have h := spec_c5_amended ⟨4, pys "f", [], [], pys "float",
      some (1/4 : ℚ), some (3/4 : ℚ), Option.none⟩ ⟨1/3, 0, 0⟩ (by decide)
    (by show (1 : ℚ)/4 ≤ 3/4; norm_num) (by show (0 : ℚ) ≤ 1/3; norm_num)
    (by show (1 : ℚ)/3 < 1; norm_num)
    ⟨25, by show (1 : ℚ)/4 = (25 : ℤ)/100; norm_num⟩
    ⟨75, by show (3 : ℚ)/4 = (75 : ℤ)/100; norm_num⟩
  exact h

/-- C8: adding a new data point any of whose identifiers already occurs
in some existing data point is rejected with the colliding identifier
reported and no record written; the uniqueness check returns the first
duplicate identifier in the submitted order (`none` when all are
unique), skipping the record being edited when `current_dp_id` is
given. -/
theorem spec_c8 :
    (∀ (db : List DataPoint) (idents : List PyStr) (cur : Option ℕ),
      (check_identifier_uniqueness db idents cur = Option.none ↔
        ∀ i ∈ idents, ¬ ∃ row ∈ db, rowBlocks cur i row = true) ∧
      (∀ d, check_identifier_uniqueness db idents cur = some d →
        (∃ row ∈ db, rowBlocks cur d row = true) ∧
        ∃ pre suf, idents = pre ++ d :: suf ∧
          ∀ x ∈ pre, ¬ ∃ row ∈ db, rowBlocks cur x row = true)) ∧
    (∀ (db : List DataPoint) (nextId : ℕ) (name identStr dt : PyStr)
      (rmin rmax : Option ℚ) (sopts : Option PyStr) (ats : List PyStr) (d : PyStr),
      ¬ (name = [] ∨ dt = [] ∨ ats = []) →
      db.find? (fun r => decide (r.name = name)) = Option.none →
      check_identifier_uniqueness db
        (((splitComma identStr).map pyStrip).filter (fun s => decide (s ≠ [])))
        Option.none = some d →
      data_points_submit db nextId name identStr dt rmin rmax sopts ats =
        (.errDuplicate d, db)) := by
  constructor
  · intro db idents cur
    constructor
    · unfold check_identifier_uniqueness
      rw [List.find?_eq_none]
      constructor
      · intro h i hi hex
        have := h i hi
        rw [List.any_eq_true] at this
        exact this (by obtain ⟨row, hrow, hb⟩ := hex; exact ⟨row, hrow, hb⟩)
      · intro h i hi
        rw [List.any_eq_true]
        intro hc
        obtain ⟨row, hrow, hb⟩ := hc
        exact h i hi ⟨row, hrow, hb⟩
    · intro d hd
      unfold check_identifier_uniqueness at hd
      obtain ⟨hp, pre, suf, hsplit, hpre⟩ := find?_first _ idents d hd
      rw [List.any_eq_true] at hp
      refine ⟨hp, pre, suf, hsplit, ?_⟩
      intro x hx hex
      have := hpre x hx
      rw [← Bool.not_eq_true, List.any_eq_true] at this
      exact this hex
  · intro db nextId name identStr dt rmin rmax sopts ats d hmiss hfind hdup
    unfold data_points_submit
    rw [if_neg hmiss, hfind]
    simp only [Option.isSome_none, Bool.false_eq_true, if_false, hdup]

/-- Witness for C8: against a store holding one data point with
identifier `idA`, submitting a new data point that reuses `idA` is
rejected with `idA` reported and the store unchanged. -/
theorem spec_c8_witness :
    data_points_submit
      [⟨1, pys "existing", [pys "idA"], [pys "HVAC"], pys "float",
        Option.none, Option.none, Option.none⟩]
      2 (pys "new") (pys "idA") (pys "float") Option.none Option.none Option.none
      [pys "HVAC"] =
      (.errDuplicate (pys "idA"),
       [⟨1, pys "existing", [pys "idA"], [pys "HVAC"], pys "float",
         Option.none, Option.none, Option.none⟩]) := by
  exact spec_c8.2
    [⟨1, pys "existing", [pys "idA"], [pys "HVAC"], pys "float",
      Option.none, Option.none, Option.none⟩]
    2 (pys "new") (pys "idA") (pys "float") Option.none Option.none Option.none
    [pys "HVAC"] (pys "idA") (by decide) (by decide) (by decide)

/-- Closed form of one successful single-source run. -/
theorem singleRun_spec (store : List DataPoint) (rand2 : ℕ → ℕ → Draws)
    (pld assetName : PyStr) (s e f : ℕ) (hp : pld ≠ []) (hse : s ≤ e) (hf : 1 ≤ f)
    (hne : get_data_points_by_asset_type store assetName ≠ [])
    (hsafe : ∀ dp ∈ get_data_points_by_asset_type store assetName, dpSafe dp) :
    ∃ ps, singleRun store rand2 pld assetName s e f = .ok (.generated ps) ∧
      ps.length = (e * 86400 + 86340 - s * 86400) / (f * 60) + 1 ∧
      ∀ i (hi : i < ps.length),
        (ps.get ⟨i, hi⟩).seqid = i + 1 ∧
        (ps.get ⟨i, hi⟩).tms = renderInstant (s * 86400 + i * (f * 60)) := by
  unfold singleRun
  rw [if_neg (by simpa using hp), if_neg (by omega)]
  rcases hdps : get_data_points_by_asset_type store assetName with _ | ⟨dp, dps⟩
  · exact absurd hdps hne
  · have hsafe' : ∀ d ∈ dp :: dps, dpSafe d := by rw [← hdps]; exact hsafe
    have hstep : 0 < f * 60 := by omega
    have hfuel : e * 86400 + 86340 + 1 - s * 86400 ≤ (e * 86400 + 86342) * (f * 60) := by
      have h1 : e * 86400 + 86342 ≤ (e * 86400 + 86342) * (f * 60) :=
        Nat.le_mul_of_pos_right _ (by omega)
      omega
    obtain ⟨ps, hps, hlen, hget⟩ := genLoop_spec rand2 (dp :: dps) pld
      (e * 86400 + 86340) (f * 60) hstep hsafe' (e * 86400 + 86342) (s * 86400) 1 hfuel
    dsimp only
    rw [hps]
    refine ⟨ps, rfl, ?_, ?_⟩
    · rw [hlen, if_pos (by omega)]
    · intro i hi
      obtain ⟨hseq, htms, _⟩ := hget i hi
      exact ⟨by omega, htms⟩

/-- C3: in single-source mode with `start_date ≤ end_date` and a
frequency in 1..60, the emitted timestamps are exactly
`start_of_day(start)`, `+freq`, … inclusive up to `end_of_day(end)`
with day-end 23:59:00: the count is `floor((end - start)/freq) + 1`,
the i-th instant is `start + i*freq`, every emitted instant is within
the window and the next one would leave it, the sequence is strictly
ascending, and for `start = end` with `freq = 60` exactly 24 instants
(00:00 .. 23:00) are produced.  The run is a pure function of its
inputs. -/
theorem spec_c3 (store : List DataPoint) (rand2 : ℕ → ℕ → Draws)
    (pld assetName : PyStr) (s e f : ℕ) (hp : pld ≠ []) (hse : s ≤ e)
    (hf1 : 1 ≤ f) (hf60 : f ≤ 60)
    (hne : get_data_points_by_asset_type store assetName ≠ [])
    (hsafe : ∀ dp ∈ get_data_points_by_asset_type store assetName, dpSafe dp) :
    ∃ ps, singleRun store rand2 pld assetName s e f = .ok (.generated ps) ∧
      ps.length = (e * 86400 + 86340 - s * 86400) / (f * 60) + 1 ∧
      (∀ i (hi : i < ps.length),
        (ps.get ⟨i, hi⟩).tms = renderInstant (s * 86400 + i * (f * 60))) ∧
      (∀ i, i < ps.length → s * 86400 + i * (f * 60) ≤ e * 86400 + 86340) ∧
      (∀ i, ps.length ≤ i → e * 86400 + 86340 < s * 86400 + i * (f * 60)) ∧
      (∀ i j, i < j → s * 86400 + i * (f * 60) < s * 86400 + j * (f * 60)) ∧
      (s = e → f = 60 → ps.length = 24) := by
  obtain ⟨ps, hrun, hlen, hget⟩ :=
    singleRun_spec store rand2 pld assetName s e f hp hse hf1 hne hsafe
  have hstep : 0 < f * 60 := by omega
  refine ⟨ps, hrun, hlen, fun i hi => (hget i hi).2, ?_, ?_, ?_, ?_⟩
  · intro i hi
    rw [hlen] at hi
    have : i ≤ (e * 86400 + 86340 - s * 86400) / (f * 60) := by omega
    have := (Nat.le_div_iff_mul_le hstep).mp this
    omega
  · intro i hi
    rw [hlen] at hi
    have hq : (e * 86400 + 86340 - s * 86400) / (f * 60) < i := by omega
    have := (Nat.div_lt_iff_lt_mul hstep).mp hq
    omega
  · intro i j hij
    have := (Nat.mul_lt_mul_right hstep).mpr hij
    omega
  · intro hseq hf
    subst hseq hf
    rw [hlen]
    norm_num

/-- C4: in every single-source run the `seqid` of the emitted envelope
packets starts at 1 and increases by exactly 1 per packet with no gaps:
the n-th emitted packet (1-indexed) has `seqid = n`; the counter is
local to the run (it restarts at 1 for any further run). -/
theorem spec_c4 (store : List DataPoint) (rand2 : ℕ → ℕ → Draws)
    (pld assetName : PyStr) (s e f : ℕ) (hp : pld ≠ []) (hse : s ≤ e) (hf : 1 ≤ f)
    (hne : get_data_points_by_asset_type store assetName ≠ [])
    (hsafe : ∀ dp ∈ get_data_points_by_asset_type store assetName, dpSafe dp) :
    ∃ ps, singleRun store rand2 pld assetName s e f = .ok (.generated ps) ∧
      (∀ i (hi : i < ps.length), (ps.get ⟨i, hi⟩).seqid = i + 1) ∧
      (∀ (h0 : 0 < ps.length), (ps.get ⟨0, h0⟩).seqid = 1) := by
  obtain ⟨ps, hrun, _, hget⟩ :=
    singleRun_spec store rand2 pld assetName s e f hp hse hf hne hsafe
  exact ⟨ps, hrun, fun i hi => (hget i hi).1, fun h0 => (hget 0 h0).1⟩

/-- A one-data-point store for the single-source witnesses. -/
def storeBool : List DataPoint :=
  [⟨1, pys "door open", [pys "t1"], [pys "HVAC"], pys "boolean",
    Option.none, Option.none, Option.none⟩]

/-- Witness for C3: a concrete run over one day at 60-minute frequency
produces exactly 24 timestamps. -/
theorem spec_c3_witness :
    ∃ ps, singleRun storeBool (fun _ _ => ⟨0, 0, 0⟩) (pys "PLD-001") (pys "HVAC")
        0 0 60 = .ok (.generated ps) ∧
      ps.length = (0 * 86400 + 86340 - 0 * 86400) / (60 * 60) + 1 ∧
      (∀ i (hi : i < ps.length),
        (ps.get ⟨i, hi⟩).tms = renderInstant (0 * 86400 + i * (60 * 60))) ∧
      (∀ i, i < ps.length → 0 * 86400 + i * (60 * 60) ≤ 0 * 86400 + 86340) ∧
      (∀ i, ps.length ≤ i → 0 * 86400 + 86340 < 0 * 86400 + i * (60 * 60)) ∧
      (∀ i j, i < j → 0 * 86400 + i * (60 * 60) < 0 * 86400 + j * (60 * 60)) ∧
      (0 = 0 → 60 = 60 → ps.length = 24) :=
  spec_c3 storeBool (fun _ _ => ⟨0, 0, 0⟩) (pys "PLD-001") (pys "HVAC") 0 0 60
    (by decide) (by decide) (by decide) (by decide) (by decide) (by decide)

/-- Witness for C4: a concrete run at 5-minute frequency has seqids
1, 2, 3, …. -/
theorem spec_c4_witness :
    ∃ ps, singleRun storeBool (fun _ _ => ⟨0, 0, 0⟩) (pys "PLD-002") (pys "HVAC")
        0 1 5 = .ok (.generated ps) ∧
      (∀ i (hi : i < ps.length), (ps.get ⟨i, hi⟩).seqid = i + 1) ∧
      (∀ (h0 : 0 < ps.length), (ps.get ⟨0, h0⟩).seqid = 1) :=
  spec_c4 storeBool (fun _ _ => ⟨0, 0, 0⟩) (pys "PLD-002") (pys "HVAC") 0 1 5
    (by decide) (by decide) (by decide) (by decide) (by decide)

/-- The per-asset source loop succeeds on safe data points and emits
`n` packets per source id. -/
theorem pldLoop_spec (rand3 : ℕ → ℕ → ℕ → Draws) (dps : List DataPoint)
    (assetName : PyStr) (startSec intervalSec n : ℕ)
    (hsafe : ∀ dp ∈ dps, dpSafe dp) :
    ∀ (plds : List PyStr) (j : ℕ),
      ∃ ps, pldLoop rand3 dps assetName startSec intervalSec n j plds = .ok ps ∧
        ps.length = plds.length * n := by
  intro plds
  induction plds with
  | nil => intro j; exact ⟨[], rfl, by simp⟩
  | cons pld rest ih =>
    intro j
    obtain ⟨ps, hps, hlen, _⟩ :=
      flatLoop_spec (rand3 j) dps assetName pld startSec intervalSec hsafe n 0
    obtain ⟨qs, hqs, hqlen⟩ := ih (j + 1)
    refine ⟨ps ++ qs, by simp [pldLoop, hps, hqs], ?_⟩
    simp only [List.length_append, hlen, hqlen, List.length_cons]
    ring

/-- C1: in multi-source mode, for a selected asset type with frequency
`freq` minutes, the generator computes `interval = freq*60` seconds and
the window `total = end_of_day(end) - start_of_day(start)` (day-end
23:59:00); if `total < interval` it emits exactly one packet at `start`
per source id, otherwise exactly `floor(total / interval)` packets, the
i-th at `start + i*interval` — and each non-empty source id of the
asset type gets exactly that sequence, the whole asset contributing
`#sources * count` packets. -/
theorem spec_c1 (store : List DataPoint) (s e : ℕ) (a : AssetCfg) (hse : s ≤ e)
    (hf : 1 ≤ a.freq)
    (hsafe : ∀ dp ∈ get_data_points_by_asset_type store a.name, dpSafe dp) :
    (numPackets s e a.freq =
      (if (e - s) * 86400 + 86340 < a.freq * 60 then 1
       else ((e - s) * 86400 + 86340) / (a.freq * 60))) ∧
    (∀ (pld : PyStr) (j : ℕ),
      ∃ ps, flatLoop (a.rand j) (get_data_points_by_asset_type store a.name) a.name pld
          (s * 86400) (a.freq * 60) 0 (numPackets s e a.freq) = .ok ps ∧
        ps.length = numPackets s e a.freq ∧
        ∀ k (hk : k < ps.length),
          (ps.get ⟨k, hk⟩).timestamp = renderInstant (s * 86400 + k * (a.freq * 60)) ∧
          (ps.get ⟨k, hk⟩).pld = pld ∧ (ps.get ⟨k, hk⟩).asset_type = a.name) ∧
    (∀ (dp0 : DataPoint) (dps0 : List DataPoint) (pld0 : PyStr) (plds0 : List PyStr),
      cleanedPlds a.plds = pld0 :: plds0 →
      get_data_points_by_asset_type store a.name = dp0 :: dps0 →
      ∃ r, runAsset store s e a = .ok r ∧ r.isError = false ∧ r.isWarning = false ∧
        r.packets.length = (cleanedPlds a.plds).length * numPackets s e a.freq) := by
  refine ⟨numPackets_eq_spec s e a.freq hse hf, ?_, ?_⟩
  · intro pld j
    obtain ⟨ps, hps, hlen, hget⟩ :=
      flatLoop_spec (a.rand j) (get_data_points_by_asset_type store a.name) a.name pld
        (s * 86400) (a.freq * 60) hsafe (numPackets s e a.freq) 0
    refine ⟨ps, hps, hlen, ?_⟩
    intro k hk
    obtain ⟨ht, hpld, han⟩ := hget k hk
    refine ⟨?_, hpld, han⟩
    rw [ht, Nat.zero_add]
  · intro dp0 dps0 pld0 plds0 hcl hdps
    have hsafe' : ∀ dp ∈ dp0 :: dps0, dpSafe dp := by rw [← hdps]; exact hsafe
    obtain ⟨ps, hps, hlen⟩ := pldLoop_spec a.rand (dp0 :: dps0) a.name (s * 86400)
      (a.freq * 60) (numPackets s e a.freq) hsafe' (pld0 :: plds0) 0
    refine ⟨⟨ps, false, false⟩, ?_, rfl, rfl, ?_⟩
    · unfold runAsset
      rw [hcl, hdps]
      dsimp only
      rw [if_neg (by omega), hps]
    · simpa [hcl] using hlen

/-- Witness for C1: one asset type over a one-day window at frequency
1440 minutes (exactly one day): the window (86340 active seconds, or
86399.999999 as the code measures it) is shorter than the interval, so
exactly one packet per source id is scheduled, at the window start. -/
theorem spec_c1_witness :
    numPackets 0 0 1440 =
      (if (0 - 0) * 86400 + 86340 < 1440 * 60 then 1
       else ((0 - 0) * 86400 + 86340) / (1440 * 60)) ∧
    (∀ (pld : PyStr) (j : ℕ),
      ∃ ps, flatLoop ((fun _ _ _ => (⟨0, 0, 0⟩ : Draws)) j)
          (get_data_points_by_asset_type storeBool (pys "HVAC")) (pys "HVAC") pld
          (0 * 86400) (1440 * 60) 0 (numPackets 0 0 1440) = .ok ps ∧
        ps.length = numPackets 0 0 1440 ∧
        ∀ k (hk : k < ps.length),
          (ps.get ⟨k, hk⟩).timestamp = renderInstant (0 * 86400 + k * (1440 * 60)) ∧
          (ps.get ⟨k, hk⟩).pld = pld ∧ (ps.get ⟨k, hk⟩).asset_type = pys "HVAC") := by
  have h := spec_c1 storeBool 0 0
    ⟨pys "HVAC", [pys " src1 "], 1440, fun _ _ _ => ⟨0, 0, 0⟩⟩
    (by decide) (by decide) (by decide)
  exact ⟨h.1, h.2.1⟩

/-- C2: whenever the multi-source run produces output, that output is
the merged packet list sorted ascending by the rendered `timestamp`
string (non-decreasing in lexicographic string order); and because the
timestamp format is fixed-width (for years 1000..9999) with a fixed
offset, that lexicographic string order coincides with the
chronological order of the underlying instants. -/
theorem spec_c2 :
    (∀ (store : List DataPoint) (s e : ℕ) (assets : List AssetCfg)
        (pr : List FlatPacket × Bool),
      multiScan store s e assets = .ok pr → pr.2 = false → pr.1 ≠ [] →
      multiOutput store s e assets = .ok (some (pr.1.mergeSort timLe)) ∧
      List.Pairwise (fun p q : FlatPacket => lexLe p.timestamp q.timestamp = true)
        (pr.1.mergeSort timLe)) ∧
    (∀ t₁ t₂ : ℕ,
      1000 ≤ yearOfInstant t₁ → yearOfInstant t₁ ≤ 9999 →
      1000 ≤ yearOfInstant t₂ → yearOfInstant t₂ ≤ 9999 →
      (lexLe (renderInstant t₁) (renderInstant t₂) = true ↔ t₁ ≤ t₂)) := by
  constructor
  · intro store s e assets pr hscan herr hne
    constructor
    · unfold multiOutput
      rw [hscan]
      dsimp only
      rw [if_pos ⟨herr, hne⟩]
    · have hs := @List.sorted_mergeSort FlatPacket timLe
        (fun a b c hab hbc => lexLe_trans hab hbc)
        (fun a b => lexLe_total a.timestamp b.timestamp) pr.1
      exact hs.imp (fun h => h)
  · intro t₁ t₂ h11 h12 h21 h22
    exact renderInstant_le_iff h11 h12 h21 h22

set_option maxRecDepth 40000 in
/-- Witness for C2 at a concrete run (one asset type, two source ids,
two packets each) and at two concrete instants in the year 1096. -/
theorem spec_c2_witness :
    (∀ pr : List FlatPacket × Bool,
      multiScan storeBool 0 0
        [⟨pys "HVAC", [pys "p1", pys "p2"], 720, fun _ _ _ => ⟨0, 0, 0⟩⟩] = .ok pr →
      pr.2 = false → pr.1 ≠ [] →
      multiOutput storeBool 0 0
        [⟨pys "HVAC", [pys "p1", pys "p2"], 720, fun _ _ _ => ⟨0, 0, 0⟩⟩] =
        .ok (some (pr.1.mergeSort timLe)) ∧
      List.Pairwise (fun p q : FlatPacket => lexLe p.timestamp q.timestamp = true)
        (pr.1.mergeSort timLe)) ∧
    (lexLe (renderInstant (400000 * 86400)) (renderInstant (400000 * 86400 + 60)) = true ↔
      400000 * 86400 ≤ 400000 * 86400 + 60) := by
  constructor
  · intro pr hscan herr hne
    exact spec_c2.1 storeBool 0 0 _ pr hscan herr hne
  · exact spec_c2.2 (400000 * 86400) (400000 * 86400 + 60)
      (by decide) (by decide) (by decide) (by decide)

/-- Asset configuration with no non-empty source ids (C9
counterexample). -/
def badAsset : AssetCfg := ⟨pys "SOLAR Inverter", [pys "  "], 60, fun _ _ _ => ⟨0, 0, 0⟩⟩

/-- A valid asset configuration alongside it. -/
def goodAsset : AssetCfg := ⟨pys "HVAC", [pys "p1"], 1440, fun _ _ _ => ⟨0, 0, 0⟩⟩

/-- C9 counterexample: the claim says that when one selected asset type
has no non-empty source ids, every other selected asset type's packets
still appear in the produced output; but `has_errors` suppresses the
output entirely: the other asset's packet is generated internally, yet
the run produces no output at all. -/
theorem spec_c9_counterexample :
    multiScan storeBool 0 0 [badAsset, goodAsset] =
      .ok ([⟨pys "p1", pys "HVAC", renderInstant 0, [(pys "t1", PyVal.bool true)]⟩], true) ∧
    multiOutput storeBool 0 0 [badAsset, goodAsset] = .ok Option.none := by
  constructor
  · decide
  · decide

/-- C9 (amended): a selected asset type with source ids but no matching
data points yields zero packets and only a warning; a selected asset
type with no non-empty source ids sets the blocking error flag while
the remaining selected asset types are still processed and their
packets still accumulated; but once any asset type has errored, the run
produces no output at all — no asset type's packets appear in any
produced output. -/
theorem spec_c9_amended :
    (∀ (store : List DataPoint) (s e : ℕ) (a : AssetCfg),
      cleanedPlds a.plds ≠ [] → get_data_points_by_asset_type store a.name = [] →
      runAsset store s e a = .ok ⟨[], false, true⟩) ∧
    (∀ (store : List DataPoint) (s e : ℕ) (bad : AssetCfg) (rest : List AssetCfg)
        (pr : List FlatPacket × Bool),
      cleanedPlds bad.plds = [] → multiScan store s e rest = .ok pr →
      multiScan store s e (bad :: rest) = .ok (pr.1, true)) ∧
    (∀ (store : List DataPoint) (s e : ℕ) (assets : List AssetCfg)
        (pr : List FlatPacket × Bool),
      multiScan store s e assets = .ok pr → pr.2 = true →
      multiOutput store s e assets = .ok Option.none) := by
  refine ⟨?_, ?_, ?_⟩
  · intro store s e a hcl hdps
    unfold runAsset
    rcases hc : cleanedPlds a.plds with _ | ⟨pld, plds'⟩
    · exact absurd hc hcl
    · rw [hdps]
  · intro store s e bad rest pr hcl hrest
    unfold multiScan
    have hbad : runAsset store s e bad = .ok ⟨[], true, false⟩ := by
      unfold runAsset
      rw [hcl]
    rw [hbad]
    dsimp only
    rw [hrest]
    dsimp only
    rw [List.nil_append, Bool.true_or]
  · intro store s e assets pr hscan herr
    unfold multiOutput
    rw [hscan]
    dsimp only
    rw [if_neg (by simp [herr])]

/-- Witness for C9 (amended) at concrete configurations: an asset type
with a source id but no data points warns and yields no packets; an
asset type with no valid source ids flags the error while the good
asset's packets are still scanned; and the flagged error suppresses the
output. -/
theorem spec_c9_witness :
    runAsset storeBool 0 0 ⟨pys "SOLAR Inverter", [pys "p9"], 60, fun _ _ _ => ⟨0, 0, 0⟩⟩ =
      .ok ⟨[], false, true⟩ ∧
    multiScan storeBool 0 0 [badAsset, goodAsset] =
      .ok ([⟨pys "p1", pys "HVAC", renderInstant 0, [(pys "t1", PyVal.bool true)]⟩], true) ∧
    multiOutput storeBool 0 0 [badAsset, goodAsset] = .ok Option.none := by
  refine ⟨?_, ?_, ?_⟩
  · exact spec_c9_amended.1 storeBool 0 0 _ (by decide) (by decide)
  · have h := spec_c9_amended.2.1 storeBool 0 0 badAsset [goodAsset]
      ([⟨pys "p1", pys "HVAC", renderInstant 0, [(pys "t1", PyVal.bool true)]⟩], false)
      (by decide) (by decide)
    exact h
  · exact spec_c9_amended.2.2 storeBool 0 0 [badAsset, goodAsset]
      ([⟨pys "p1", pys "HVAC", renderInstant 0, [(pys "t1", PyVal.bool true)]⟩], true)
      (by decide) rfl
